import Mathlib

/-
Verification of the Translation-Models repository (IBM models 1/2 EM training,
alignment decoding, alignment symmetrization) against its specification.

The three Python scripts are shallowly embedded below:
  * estimate_model_parameters.py  (EM training of t(f|e) and q(j|i,l,m))
  * find_alignments.py            (alignment decoding)
  * improve_alignments.py         (alignment symmetrization)

Probabilities are modelled with exact rationals (ℚ); Python dicts whose values
are accumulated pointwise are modelled as functions, Python sets as Finsets.
-/

namespace TranslationModels

/-- The reserved english token that may align to any foreign word
(`NULL` in all three scripts). -/
def NULL : String := "NULL"

/-! ## Symmetrizer (improve_alignments.py)

Alignment points are pairs `(i, j)` of Python integers: `i` is a foreign
position, `j` an english position (`0` = NULL).  We model them as `ℤ × ℤ`.
-/

/-- Python tuple comparison on pairs: lexicographic order.  `sorted(alignment)`
in `Parser.improve_alignments` sorts the alignment points by this order. -/
def pairLe (a b : ℤ × ℤ) : Prop :=
  a.1 < b.1 ∨ (a.1 = b.1 ∧ a.2 ≤ b.2)

instance : DecidableRel pairLe := fun a b => by
  unfold pairLe; infer_instance

instance : IsTrans (ℤ × ℤ) pairLe := by
  constructor
  intro a b c hab hbc
  rcases hab with h1 | ⟨h1, h2⟩ <;> rcases hbc with h3 | ⟨h3, h4⟩ <;>
    unfold pairLe <;> omega

instance : IsAntisymm (ℤ × ℤ) pairLe := by
  constructor
  intro a b hab hba
  rcases hab with h1 | ⟨h1, h2⟩ <;> rcases hba with h3 | ⟨h3, h4⟩ <;>
    [omega; omega; omega; skip]
  have : a.1 = b.1 := h1
  have : a.2 = b.2 := le_antisymm h2 h4
  exact Prod.ext ‹a.1 = b.1› ‹a.2 = b.2›

instance : IsTotal (ℤ × ℤ) pairLe := by
  constructor
  intro a b
  unfold pairLe
  omega

/-- The list `sorted(alignment)` from `Parser.improve_alignments`. -/
def sortedAlignment (A : Finset (ℤ × ℤ)) : List (ℤ × ℤ) :=
  A.sort pairLe

/-- Output lines printed at the end of `Parser.improve_alignments`
(improve_alignments.py lines 120-122):
`for (i, j) in sorted(alignment): if j > 0: write(k, j, i)`. -/
def symLines (k : ℤ) (alignment : Finset (ℤ × ℤ)) : List (ℤ × ℤ × ℤ) :=
  ((sortedAlignment alignment).filter (fun p => 0 < p.2)).map
    (fun p => (k, p.2, p.1))

/-- Modelled from the spec's words for claim C2 only: output lines whose fields
are `sentence-index foreign-position english-position` as §6 of the
specification asserts (to be compared with `symLines`, which is the code). -/
def symLinesSpecOrder (k : ℤ) (alignment : Finset (ℤ × ℤ)) : List (ℤ × ℤ × ℤ) :=
  ((sortedAlignment alignment).filter (fun p => 0 < p.2)).map
    (fun p => (k, p.1, p.2))

/-- The eight adjacent/diagonal neighbour offsets from
`Parser.improve_alignments` (improve_alignments.py lines 74-75). -/
def neighbours : List (ℤ × ℤ) :=
  [(-1, 0), (1, 0), (0, -1), (0, 1), (-1, -1), (-1, 1), (1, -1), (1, 1)]

/-- State of the growing pass: the current alignment set and the two coverage
sets `words = ({i}, {j})` of `Parser.improve_alignments`. -/
structure GrowState where
  alignment : Finset (ℤ × ℤ)
  wi : Finset ℤ
  wj : Finset ℤ

/-- One neighbour check for the visited point `p`: the body of the inner
`for (di, dj) in neighbours` loop of `Parser.improve_alignments`
(improve_alignments.py lines 105-116). -/
def visitStep (p : ℤ × ℤ) (s : GrowState) (d : ℤ × ℤ) : GrowState :=
  if (p.1 + d.1, p.2 + d.2) ∈ s.alignment then
    if p.1 ∉ s.wi ∨ p.2 ∉ s.wj then
      ⟨insert p s.alignment, insert p.1 s.wi, insert p.2 s.wj⟩
    else s
  else s

/-- Processing of one visited point `(i, j)` of the union: the inner
`for (di, dj) in neighbours` loop of `Parser.improve_alignments`. -/
def visit (p : ℤ × ℤ) (s : GrowState) : GrowState :=
  neighbours.foldl (visitStep p) s

/-- Initial state of the growing pass: the intersection of the two input
alignments and the positions it covers (improve_alignments.py lines 83, 93-94). -/
def growInit (ae af : Finset (ℤ × ℤ)) : GrowState :=
  ⟨ae ∩ af, (ae ∩ af).image Prod.fst, (ae ∩ af).image Prod.snd⟩

/-- The growing pass of `Parser.improve_alignments`
(improve_alignments.py lines 98-116).  CPython iterates over the set
`union.difference(alignment)` in an unspecified order; the visitation order is
therefore taken as an explicit list parameter `order`. -/
def grow (ae af : Finset (ℤ × ℤ)) (order : List (ℤ × ℤ)) : GrowState :=
  order.foldl (fun s p => visit p s) (growInit ae af)

/-! ## Corpus and parameter tables (estimate_model_parameters.py)

Probability tables are modelled as total functions; an entry of the Python
dicts exists exactly for the keys in `tSupport` / `qKeys` below, and every
read the scripts perform is at such a key, so the functions are only ever
meaningful there.  The nested `count` dict accumulated by `+=` in `EM.iterate`
is modelled pointwise: the value of a key is the sum of all increments made
to it, which is what the loop computes since addition is commutative.
-/

abbrev Sentence := List String

/-- The parallel corpus: the lists `self.e` and `self.f` of `EM`. -/
structure Corpus where
  es : List Sentence
  fs : List Sentence

/-- The sentence pairs scanned by `for n in range(self.n)`: under the
equal-count invariant `len(self.f) = len(self.e) = self.n` this is the zip. -/
def Corpus.pairs (C : Corpus) : List (Sentence × Sentence) :=
  C.es.zip C.fs

/-- Foreign words added to `self.t[e]` by one sentence pair in
`EM.create_parameters` (estimate_model_parameters.py lines 88-94): the token
set of the foreign sentence when `e` is `NULL` or occurs in the english
sentence, nothing otherwise. -/
def sentenceSupport (es fs : Sentence) (e : String) : Finset String :=
  if e = NULL ∨ e ∈ es then fs.toFinset else ∅

/-- The candidate set `self.t[e]` after `EM.create_parameters`. -/
def tSupport (C : Corpus) (e : String) : Finset String :=
  (C.pairs.map (fun p => sentenceSupport p.1 p.2 e)).foldr (· ∪ ·) ∅

/-- The keys of the dict `self.t` after `EM.create_parameters`: `NULL` plus
every token of every english sentence. -/
def tKeys (C : Corpus) : Finset String :=
  insert NULL ((C.es.map List.toFinset).foldr (· ∪ ·) ∅)

/-- The keys `(i, l, m)` of the dict `self.q` after `EM.create_parameters`
(estimate_model_parameters.py lines 102-108).  The value set of each key is
`set(range(l + 1))`, always. -/
def qKeys (C : Corpus) : Finset (ℕ × ℕ × ℕ) :=
  (C.pairs.map (fun p =>
    ((List.range' 1 p.2.length).map
      (fun i => (i, p.1.length, p.2.length))).toFinset)).foldr (· ∪ ·) ∅

/-- Initial guess for `t(f|e)` set by `EM.initialize`: `1 / len(self.t[e])`
for every `f` in the candidate set of `e`. -/
def initT (C : Corpus) : String → String → ℚ :=
  fun e _f => 1 / ((tSupport C e).card : ℚ)

/-- Initial guess for `q(j|i,l,m)` set by `EM.initialize`:
`1 / len(self.q[(i,l,m)])` where the value set is `{0, ..., l}`. -/
def initQ : ℕ × ℕ × ℕ → ℕ → ℚ :=
  fun key _j => 1 / ((key.2.1 : ℚ) + 1)

/-- Element lookup `s[idx]` on a sentence; all lookups below are in range. -/
def nth (s : Sentence) (idx : ℕ) : String :=
  s.getD idx ""

/-- The english token at 1-based position `j`, with `e_0 = NULL`. -/
def eAt (es : Sentence) (j : ℕ) : String :=
  if j = 0 then NULL else nth es (j - 1)

/-! ### Model-1 E-step (estimate_model_parameters.py lines 140-177) -/

/-- The normalizer `sum` of the model-1 E-step: `self.t[NULL][f]` plus
`self.t[e][f]` for every english token occurrence in the sentence. -/
def z1 (t : String → String → ℚ) (es : Sentence) (f : String) : ℚ :=
  t NULL f + (es.map (fun e => t e f)).sum

/-- The model-1 `delta` dict.  Every write to key `(e, f)` stores the same
value `t(f|e) / sum`, independent of position, so the dict is the function
below at every key it holds. -/
def delta1 (t : String → String → ℚ) (es : Sentence) : String × String → ℚ :=
  fun p => t p.1 p.2 / z1 t es p.2

/-! ### Model-2 E-step (estimate_model_parameters.py lines 188-223) -/

/-- The normalizer `sum` of the model-2 E-step for foreign position `i`. -/
def z2 (t : String → String → ℚ) (q : ℕ × ℕ × ℕ → ℕ → ℚ)
    (es fs : Sentence) (i : ℕ) : ℚ :=
  q (i, es.length, fs.length) 0 * t NULL (nth fs (i - 1)) +
    ((List.range' 1 es.length).map
      (fun j => q (i, es.length, fs.length) j * t (nth es (j - 1)) (nth fs (i - 1)))).sum

/-- The sequence of writes to the model-2 `delta` dict, in program order:
for each foreign position `i` ascending, first the `(NULL, f_i)` entry and
then the `(e_j, f_i)` entry for each english position `j` ascending. -/
def deltaWrites (t : String → String → ℚ) (q : ℕ × ℕ × ℕ → ℕ → ℚ)
    (es fs : Sentence) : List ((String × String) × ℚ) :=
  ((List.range' 1 fs.length).map (fun i =>
    ((NULL, nth fs (i - 1)),
      q (i, es.length, fs.length) 0 * t NULL (nth fs (i - 1)) / z2 t q es fs i) ::
    (List.range' 1 es.length).map (fun j =>
      ((nth es (j - 1), nth fs (i - 1)),
        q (i, es.length, fs.length) j * t (nth es (j - 1)) (nth fs (i - 1)) /
          z2 t q es fs i)))).flatten

/-- The model-2 `delta` dict after all writes: later writes to the same
word-type pair overwrite earlier ones, exactly as in the Python dict. -/
def delta2 (t : String → String → ℚ) (q : ℕ × ℕ × ℕ → ℕ → ℚ)
    (es fs : Sentence) : String × String → ℚ :=
  (deltaWrites t q es fs).foldl (fun d w => Function.update d w.1 w.2) (fun _ => 0)

/-! ### Expected-count accumulation (shared loop shape of both models) -/

/-- Contribution of one sentence pair to `count[(e, f)]`: the double loop
`for e in [NULL] + self.e[k]: for f in self.f[k]: count[(e,f)] += delta[(e,f)]`,
evaluated pointwise at the key `p`. -/
def cEF (d : String × String → ℚ) (es fs : Sentence) (p : String × String) : ℚ :=
  ((NULL :: es).map (fun e =>
    (fs.map (fun f => if p = (e, f) then d (e, f) else 0)).sum)).sum

/-- Contribution of one sentence pair to `count[(e)]` (same double loop,
`count[(e)] += delta[(e,f)]`), evaluated pointwise at `e0`. -/
def cE (d : String × String → ℚ) (es fs : Sentence) (e0 : String) : ℚ :=
  ((NULL :: es).map (fun e =>
    (fs.map (fun f => if e0 = e then d (e, f) else 0)).sum)).sum

/-- Contribution of one sentence pair to `count[(i, l, m, j)]`
(estimate_model_parameters.py lines 215-222), evaluated pointwise. -/
def cQ4 (d : String × String → ℚ) (es fs : Sentence) (key : ℕ × ℕ × ℕ × ℕ) : ℚ :=
  ((List.range (es.length + 1)).map (fun j =>
    ((List.range' 1 fs.length).map (fun i =>
      if key = (i, es.length, fs.length, j) then d (eAt es j, nth fs (i - 1))
      else 0)).sum)).sum

/-- Contribution of one sentence pair to `count[(i, l, m)]`
(estimate_model_parameters.py lines 215-223), evaluated pointwise. -/
def cQ3 (d : String × String → ℚ) (es fs : Sentence) (key : ℕ × ℕ × ℕ) : ℚ :=
  ((List.range (es.length + 1)).map (fun j =>
    ((List.range' 1 fs.length).map (fun i =>
      if key = (i, es.length, fs.length) then d (eAt es j, nth fs (i - 1))
      else 0)).sum)).sum

/-! ### Corpus-level counts and M-steps -/

/-- Model-1 corpus total of `count[(e, f)]`. -/
def countEF1 (t : String → String → ℚ) (C : Corpus) (p : String × String) : ℚ :=
  (C.pairs.map (fun pr => cEF (delta1 t pr.1) pr.1 pr.2 p)).sum

/-- Model-1 corpus total of `count[(e)]`. -/
def countE1 (t : String → String → ℚ) (C : Corpus) (e0 : String) : ℚ :=
  (C.pairs.map (fun pr => cE (delta1 t pr.1) pr.1 pr.2 e0)).sum

/-- The model-1 M-step `self.t[e][f] = count[(e, f)] / count[(e)]`. -/
def stepT1 (t : String → String → ℚ) (C : Corpus) : String → String → ℚ :=
  fun e f => countEF1 t C (e, f) / countE1 t C e

/-- Model-2 corpus total of `count[(e, f)]`. -/
def countEF2 (t : String → String → ℚ) (q : ℕ × ℕ × ℕ → ℕ → ℚ)
    (C : Corpus) (p : String × String) : ℚ :=
  (C.pairs.map (fun pr => cEF (delta2 t q pr.1 pr.2) pr.1 pr.2 p)).sum

/-- Model-2 corpus total of `count[(e)]`. -/
def countE2 (t : String → String → ℚ) (q : ℕ × ℕ × ℕ → ℕ → ℚ)
    (C : Corpus) (e0 : String) : ℚ :=
  (C.pairs.map (fun pr => cE (delta2 t q pr.1 pr.2) pr.1 pr.2 e0)).sum

/-- Model-2 corpus total of `count[(i, l, m, j)]`. -/
def countQ4 (t : String → String → ℚ) (q : ℕ × ℕ × ℕ → ℕ → ℚ)
    (C : Corpus) (key : ℕ × ℕ × ℕ × ℕ) : ℚ :=
  (C.pairs.map (fun pr => cQ4 (delta2 t q pr.1 pr.2) pr.1 pr.2 key)).sum

/-- Model-2 corpus total of `count[(i, l, m)]`. -/
def countQ3 (t : String → String → ℚ) (q : ℕ × ℕ × ℕ → ℕ → ℚ)
    (C : Corpus) (key : ℕ × ℕ × ℕ) : ℚ :=
  (C.pairs.map (fun pr => cQ3 (delta2 t q pr.1 pr.2) pr.1 pr.2 key)).sum

/-- The model-2 M-step for `t`: `self.t[e][f] = count[(e, f)] / count[(e)]`. -/
def stepT2 (t : String → String → ℚ) (q : ℕ × ℕ × ℕ → ℕ → ℚ)
    (C : Corpus) : String → String → ℚ :=
  fun e f => countEF2 t q C (e, f) / countE2 t q C e

/-- The model-2 M-step for `q`:
`self.q[(i,l,m)][j] = count[(i,l,m,j)] / count[(i,l,m)]`. -/
def stepQ2 (t : String → String → ℚ) (q : ℕ × ℕ × ℕ → ℕ → ℚ)
    (C : Corpus) : ℕ × ℕ × ℕ → ℕ → ℚ :=
  fun key j => countQ4 t q C (key.1, key.2.1, key.2.2, j) / countQ3 t q C key

/-- The two parameter tables held by an `EM` instance. -/
structure EMState where
  t : String → String → ℚ
  q : ℕ × ℕ × ℕ → ℕ → ℚ

/-- State after `EM.create_parameters` and `EM.initialize`. -/
def initState (C : Corpus) : EMState :=
  ⟨initT C, initQ⟩

/-- One iteration of `EM.iterate` with `self.model == 2`. -/
def iter2 (C : Corpus) (s : EMState) : EMState :=
  ⟨stepT2 s.t s.q C, stepQ2 s.t s.q C⟩

/-- State after `initialize` followed by `n` model-2 EM iterations. -/
def run2 (C : Corpus) : ℕ → EMState
  | 0 => initState C
  | n + 1 => iter2 C (run2 C n)

/-! ### Corpus likelihood -/

/-- Model-2 likelihood of one foreign sentence given the english one (up to
the constant factor epsilon that does not change between iterations):
the product over foreign positions of the normalizer `z2`. -/
def sentenceLik2 (t : String → String → ℚ) (q : ℕ × ℕ × ℕ → ℕ → ℚ)
    (es fs : Sentence) : ℚ :=
  ((List.range' 1 fs.length).map (fun i => z2 t q es fs i)).prod

/-- Model-2 likelihood of the whole corpus. -/
def corpusLik2 (s : EMState) (C : Corpus) : ℚ :=
  (C.pairs.map (fun p => sentenceLik2 s.t s.q p.1 p.2)).prod

/-! ### Spec-modelled per-position E-step (for claim C1)

The specification describes the model-2 E-step as accumulating, for every
position pair `(i, j)` separately, the posterior responsibility
`q(j|i,l,m) * t(f_i|e_j) / Z_i`.  The definitions below follow the spec's
words; they are compared against the code's `cEF` / `cQ4` accumulation. -/

/-- Per-position responsibility that foreign position `i` aligns to english
position `j` (`0` = NULL), as the spec describes it. -/
def resp2 (t : String → String → ℚ) (q : ℕ × ℕ × ℕ → ℕ → ℚ)
    (es fs : Sentence) (i j : ℕ) : ℚ :=
  q (i, es.length, fs.length) j * t (eAt es j) (nth fs (i - 1)) / z2 t q es fs i

/-- Spec-described translation count for one sentence pair: each position
pair `(i, j)` contributes its own responsibility to `(e_j, f_i)`. -/
def specCountEF2 (t : String → String → ℚ) (q : ℕ × ℕ × ℕ → ℕ → ℚ)
    (es fs : Sentence) (p : String × String) : ℚ :=
  ((List.range' 1 fs.length).map (fun i =>
    ((List.range (es.length + 1)).map (fun j =>
      if p = (eAt es j, nth fs (i - 1)) then resp2 t q es fs i j else 0)).sum)).sum

/-- Spec-described distortion count for one sentence pair: position pair
`(i, j)` contributes its own responsibility to `(i, l, m, j)`. -/
def specCountQ4 (t : String → String → ℚ) (q : ℕ × ℕ × ℕ → ℕ → ℚ)
    (es fs : Sentence) (key : ℕ × ℕ × ℕ × ℕ) : ℚ :=
  ((List.range (es.length + 1)).map (fun j =>
    ((List.range' 1 fs.length).map (fun i =>
      if key = (i, es.length, fs.length, j) then resp2 t q es fs i j else 0)).sum)).sum

/-! ## Decoder (find_alignments.py) -/

/-- The score `self.q[(i,l,m)][j] * self.t[e_j][f_i]` evaluated in
`Parser.find_alignments` (with `e_0 = NULL` for `j = 0`). -/
def score (t : String → String → ℚ) (q : ℕ × ℕ × ℕ → ℕ → ℚ)
    (es fs : Sentence) (i j : ℕ) : ℚ :=
  q (i, es.length, fs.length) j * t (eAt es j) (nth fs (i - 1))

/-- The `max`/`argmax` pair maintained by the loop of
`Parser.find_alignments` (find_alignments.py lines 72-78): start from
`j = 0`, scan `j = 1..l`, replace only on a strictly greater score. -/
def argmaxFold (f : ℕ → ℚ) (l : ℕ) : ℚ × ℕ :=
  (List.range' 1 l).foldl
    (fun acc j => if f j > acc.1 then (f j, j) else acc) (f 0, 0)

/-- The chosen english position for foreign position `i`: the `argmax`
variable after the scan. -/
def bestAlignment (t : String → String → ℚ) (q : ℕ × ℕ × ℕ → ℕ → ℚ)
    (es fs : Sentence) (i : ℕ) : ℕ :=
  (argmaxFold (fun j => score t q es fs i j) es.length).2

/-- The alignment list `a` built by `Parser.find_alignments`. -/
def findAlignments (t : String → String → ℚ) (q : ℕ × ℕ × ℕ → ℕ → ℚ)
    (es fs : Sentence) : List ℕ :=
  (List.range' 1 fs.length).map (fun i => bestAlignment t q es fs i)

/-- Output lines of `Parser.find_alignments` (find_alignments.py lines 83-85):
`for i in range(m): if a[i] > 0: write(k + 1, a[i], i + 1)`. -/
def decoderLines (t : String → String → ℚ) (q : ℕ × ℕ × ℕ → ℕ → ℚ)
    (k : ℕ) (es fs : Sentence) : List (ℕ × ℕ × ℕ) :=
  (List.range fs.length).filterMap (fun i =>
    if 0 < (findAlignments t q es fs).getD i 0 then
      some (k + 1, (findAlignments t q es fs).getD i 0, i + 1)
    else none)

/-! ## Input readers and drivers (error handling, claims C8 and C10) -/

/-- The stderr message and exit status produced by `EM.read_corpus` on a
sentence-count mismatch. -/
def corpusMismatch : String × ℕ :=
  ("ERROR: English and foreign corpus files contain different number of sentences.", 1)

/-- The count check of `EM.read_corpus` (estimate_model_parameters.py lines
51-56), after both files have been parsed into sentence lists: a mismatch
writes to stderr and exits with status 1, modelled as the error value. -/
def readCorpus (es fs : List Sentence) : Except (String × ℕ) Corpus :=
  if fs.length ≠ es.length then Except.error corpusMismatch else Except.ok ⟨es, fs⟩

/-- The driver `main` of estimate_model_parameters.py, with the whole
training-and-output stage abstracted as `train`: it runs only when
`read_corpus` did not exit. -/
def emMain {α : Type} (es fs : List Sentence) (train : Corpus → α) :
    Except (String × ℕ) α :=
  (readCorpus es fs).map train

/-- The per-sentence set `self.ae[k]` built by `Parser.read_alignments`
(improve_alignments.py lines 34-41): a line `k j i` adds `(i, j)`. -/
def aeSet (lines : List (ℤ × ℤ × ℤ)) (k : ℤ) : Finset (ℤ × ℤ) :=
  ((lines.filter (fun tr => tr.1 = k)).map (fun tr => (tr.2.2, tr.2.1))).toFinset

/-- The per-sentence set `self.af[k]` built by `Parser.read_alignments`
(improve_alignments.py lines 43-52): a line `k i j` adds `(i, j)`. -/
def afSet (lines : List (ℤ × ℤ × ℤ)) (k : ℤ) : Finset (ℤ × ℤ) :=
  ((lines.filter (fun tr => tr.1 = k)).map (fun tr => (tr.2.1, tr.2.2))).toFinset

/-- The key set of the dicts `self.ae` / `self.af`: the distinct sentence
indices occurring in the first field of the lines. -/
def alignKeys (lines : List (ℤ × ℤ × ℤ)) : Finset ℤ :=
  (lines.map (fun tr => tr.1)).toFinset

/-- The stderr message and exit status produced by `Parser.read_alignments`
on a count mismatch. -/
def alignMismatch : String × ℕ :=
  ("ERROR: English and foreign alignment files contain different number of sentences.", 1)

/-- The count check of `Parser.read_alignments` (improve_alignments.py lines
54-59): `self.n = len(self.ae)` (the number of distinct keys), and a differing
key count in `self.af` exits with status 1.  On success it returns `n`. -/
def readAlignments (eLines fLines : List (ℤ × ℤ × ℤ)) : Except (String × ℕ) ℕ :=
  if (alignKeys fLines).card ≠ (alignKeys eLines).card then Except.error alignMismatch
  else Except.ok (alignKeys eLines).card

/-- One call `parser.improve_alignments(k)`: grow from the two per-sentence
sets (the CPython iteration order over `union.difference(alignment)` is
unspecified; it is modelled here with the sorted order) and print the output
lines. -/
def improveOne (ae af : Finset (ℤ × ℤ)) (k : ℤ) : List (ℤ × ℤ × ℤ) :=
  symLines k (grow ae af (((ae ∪ af) \ (ae ∩ af)).sort pairLe)).alignment

/-- One step of the driver loop of improve_alignments.py `main`: the call
`parser.improve_alignments(k)` for `k = idx + 1`.  The lookups `self.ae[k]`
and `self.af[k]` raise an uncaught `KeyError` when `k` is not a key, modelled
as `Except.error k`. -/
def symStep (eLines fLines : List (ℤ × ℤ × ℤ))
    (acc : Except ℤ (List (ℤ × ℤ × ℤ))) (idx : ℕ) : Except ℤ (List (ℤ × ℤ × ℤ)) :=
  acc.bind (fun outs =>
    let k : ℤ := (idx : ℤ) + 1
    if k ∈ alignKeys eLines then
      if k ∈ alignKeys fLines then
        Except.ok (outs ++ improveOne (aeSet eLines k) (afSet fLines k) k)
      else Except.error k
    else Except.error k)

/-- The loop `for k in range(1, parser.n + 1): parser.improve_alignments(k)`
of improve_alignments.py `main`. -/
def symLoop (eLines fLines : List (ℤ × ℤ × ℤ)) (n : ℕ) :
    Except ℤ (List (ℤ × ℤ × ℤ)) :=
  (List.range n).foldl (symStep eLines fLines) (Except.ok [])

/-- The driver `main` of improve_alignments.py: read and check the two
alignment files, then run the per-sentence loop.  The outer `Except` is the
checked count-mismatch exit, the inner one an uncaught `KeyError`. -/
def symMain (eLines fLines : List (ℤ × ℤ × ℤ)) :
    Except (String × ℕ) (Except ℤ (List (ℤ × ℤ × ℤ))) :=
  (readAlignments eLines fLines).map (fun n => symLoop eLines fLines n)

/-- Positivity of a translation table on the support built by
`EM.create_parameters`: the invariant maintained by initialization and by
every M-step. -/
def TPos (C : Corpus) (t : String → String → ℚ) : Prop :=
  ∀ e f, f ∈ tSupport C e → 0 < t e f

/-- Positivity of a distortion table on the support built by
`EM.create_parameters`. -/
def QPos (C : Corpus) (q : ℕ × ℕ × ℕ → ℕ → ℚ) : Prop :=
  ∀ i l m j, (i, l, m) ∈ qKeys C → j ≤ l → 0 < q (i, l, m) j

/-! ## Concrete instances used by counterexamples and bug demonstrations -/

/-- A concrete corpus of three sentence pairs:
`("a a", "x")`, `("a a a", "y y")`, `("b a", "y")`. -/
def C5x : Corpus :=
  ⟨[["a", "a"], ["a", "a", "a"], ["b", "a"]], [["x"], ["y", "y"], ["y"]]⟩

/-- The translation table produced by one model-2 EM iteration on `C5x`
starting from the initialized tables (value `0` at every key outside the
built support); proved equal to `stepT2 (initT C5x) initQ C5x` below. -/
def t1x : String → String → ℚ := fun e f =>
  if e = NULL then (if f = "x" then 4 / 13 else if f = "y" then 9 / 13 else 0)
  else if e = "a" then (if f = "x" then 8 / 29 else if f = "y" then 21 / 29 else 0)
  else if e = "b" then (if f = "y" then 1 else 0)
  else 0

/-- The distortion table produced by one model-2 EM iteration on `C5x`;
proved equal to `stepQ2 (initT C5x) initQ C5x` below. -/
def q1x : ℕ × ℕ × ℕ → ℕ → ℚ := fun key j =>
  if key = (1, 2, 1) then
    (if j = 0 then 7 / 24 else if j = 1 then 5 / 12 else if j = 2 then 7 / 24 else 0)
  else if key = (1, 3, 2) then (if j ≤ 3 then 1 / 4 else 0)
  else if key = (2, 3, 2) then (if j ≤ 3 then 1 / 4 else 0)
  else 0

/-- A corpus whose only english token co-occurs with no foreign token at all
(the paired foreign line is blank), so its candidate-translation set is
empty. -/
def C4x : Corpus := ⟨[["hello"]], [[]]⟩

/-! ## Lemmas about the growing pass -/

lemma visitStep_cases (p : ℤ × ℤ) (s : GrowState) (d : ℤ × ℤ) :
    visitStep p s d = s ∨
      visitStep p s d = ⟨insert p s.alignment, insert p.1 s.wi, insert p.2 s.wj⟩ := by
  unfold visitStep
  split_ifs <;> simp

lemma foldl_visitStep_between (ds : List (ℤ × ℤ)) (p : ℤ × ℤ) (s : GrowState) :
    s.alignment ⊆ (ds.foldl (visitStep p) s).alignment ∧
      (ds.foldl (visitStep p) s).alignment ⊆ insert p s.alignment := by
  induction ds generalizing s with
  | nil => exact ⟨fun x hx => hx, Finset.subset_insert p s.alignment⟩
  | cons d ds ih =>
    simp only [List.foldl_cons]
    rcases visitStep_cases p s d with h | h
    · rw [h]
      exact ih s
    · rw [h]
      refine ⟨?_, ?_⟩
      · exact (Finset.subset_insert p s.alignment).trans
          (ih ⟨insert p s.alignment, insert p.1 s.wi, insert p.2 s.wj⟩).1
      · have h2 := (ih ⟨insert p s.alignment, insert p.1 s.wi, insert p.2 s.wj⟩).2
        simpa [Finset.insert_idem] using h2

lemma visit_between (p : ℤ × ℤ) (s : GrowState) :
    s.alignment ⊆ (visit p s).alignment ∧ (visit p s).alignment ⊆ insert p s.alignment := by
  unfold visit
  exact foldl_visitStep_between neighbours p s

attribute [irreducible] visit

lemma grow_loop_between (order : List (ℤ × ℤ)) (U : Finset (ℤ × ℤ)) (s : GrowState)
    (horder : ∀ p ∈ order, p ∈ U) (hs : s.alignment ⊆ U) :
    s.alignment ⊆ (order.foldl (fun s p => visit p s) s).alignment ∧
      (order.foldl (fun s p => visit p s) s).alignment ⊆ U := by
  induction order generalizing s with
  | nil => exact ⟨fun x hx => hx, hs⟩
  | cons p order ih =>
    simp only [List.foldl_cons]
    have hpU : p ∈ U := horder p (List.mem_cons_self p order)
    have h1 := visit_between p s
    have hsub : (visit p s).alignment ⊆ U := by
      intro x hx
      rcases Finset.mem_insert.mp (h1.2 hx) with h | h
      · exact h ▸ hpU
      · exact hs h
    have ih2 := ih (visit p s) (fun q hq => horder q (List.mem_cons_of_mem p hq)) hsub
    exact ⟨h1.1.trans ih2.1, ih2.2⟩

/-- C6: for every pair of input alignment sets for the same sentence, the
symmetrizer's result contains the intersection of the two inputs and is
contained in their union, whatever visitation order the set iteration of
`Parser.improve_alignments` produces (any order of points of the union). -/
theorem c6_symmetrizer_between_inter_union (ae af : Finset (ℤ × ℤ))
    (order : List (ℤ × ℤ)) (horder : ∀ p ∈ order, p ∈ ae ∪ af) :
    ae ∩ af ⊆ (grow ae af order).alignment ∧
      (grow ae af order).alignment ⊆ ae ∪ af := by
  have hinit : (growInit ae af).alignment ⊆ ae ∪ af := by
    intro x hx
    exact Finset.mem_union_left af (Finset.mem_of_mem_inter_left hx)
  have h := grow_loop_between order (ae ∪ af) (growInit ae af) horder hinit
  exact ⟨h.1, h.2⟩

/-- Closed instance of `c6_symmetrizer_between_inter_union`: inputs
`ae = {(1,1),(2,2)}`, `af = {(1,1)}`, visitation order `[(2,2)]` (the sorted
order over the union minus the intersection). -/
theorem c6_symmetrizer_between_inter_union_witness :
    ({((1 : ℤ), (1 : ℤ)), ((2 : ℤ), (2 : ℤ))} : Finset (ℤ × ℤ)) ∩ {((1 : ℤ), (1 : ℤ))} ⊆
        (grow {((1 : ℤ), (1 : ℤ)), ((2 : ℤ), (2 : ℤ))} {((1 : ℤ), (1 : ℤ))}
          [((2 : ℤ), (2 : ℤ))]).alignment ∧
      (grow {((1 : ℤ), (1 : ℤ)), ((2 : ℤ), (2 : ℤ))} {((1 : ℤ), (1 : ℤ))}
          [((2 : ℤ), (2 : ℤ))]).alignment ⊆
        ({((1 : ℤ), (1 : ℤ)), ((2 : ℤ), (2 : ℤ))} : Finset (ℤ × ℤ)) ∪ {((1 : ℤ), (1 : ℤ))} :=
  c6_symmetrizer_between_inter_union _ _ _ (by decide)

/-- C7: if the two (normalized) input alignment sets are equal, the
symmetrizer returns exactly that set: the growing pass visits the points of
the union that are not in the intersection, and there are none. -/
theorem c7_symmetrizer_idempotent (ae af : Finset (ℤ × ℤ)) (order : List (ℤ × ℤ))
    (heq : ae = af) (horder : ∀ p, p ∈ order ↔ p ∈ (ae ∪ af) \ (ae ∩ af)) :
    (grow ae af order).alignment = ae := by
  subst heq
  have hnil : order = [] := by
    rw [List.eq_nil_iff_forall_not_mem]
    intro p hp
    have hmem := (horder p).mp hp
    simp at hmem
  subst hnil
  simp [grow, growInit]

/-- Closed instance of `c7_symmetrizer_idempotent` at `ae = af = {(1,1)}`
with the empty visitation order. -/
theorem c7_symmetrizer_idempotent_witness :
    (grow {((1 : ℤ), (1 : ℤ))} {((1 : ℤ), (1 : ℤ))} []).alignment = {((1 : ℤ), (1 : ℤ))} :=
  c7_symmetrizer_idempotent _ _ _ rfl (by simp)

/-! ## Claim C2: symmetrizer output line format -/

/-- C2 counterexample: for the alignment set `{(1, 2)}` (foreign position 1,
english position 2) at sentence index 3, the code prints the line `3 2 1`
(sentence-index, english-position, foreign-position) and not the line `3 1 2`
(sentence-index, foreign-position, english-position) that the claim
describes. -/
theorem c2_counterexample :
    symLines 3 {((1 : ℤ), (2 : ℤ))} ≠ symLinesSpecOrder 3 {((1 : ℤ), (2 : ℤ))} := by
  rw [symLines, symLinesSpecOrder, sortedAlignment, Finset.sort_singleton]
  simp

/-- C2 amended: for every sentence pair the symmetrizer emits one line per
resulting pair with english position greater than 0, ordered by the
(foreign-position, english-position) key, with fields in the order
sentence-index, english-position, foreign-position — the SAME coordinate
order as the decoder's lines `(k + 1, chosen english position, foreign
position)`, not the opposite one. -/
theorem c2_symmetrizer_output_format (k : ℤ) (A : Finset (ℤ × ℤ)) :
    (∀ i j : ℤ, (i, j) ∈ A → 0 < j → (k, j, i) ∈ symLines k A) ∧
      (∀ x ∈ symLines k A, ∃ i j : ℤ, (i, j) ∈ A ∧ 0 < j ∧ x = (k, j, i)) ∧
      List.Pairwise (fun x y : ℤ × ℤ × ℤ => pairLe (x.2.2, x.2.1) (y.2.2, y.2.1))
        (symLines k A) ∧
      (∀ (t : String → String → ℚ) (q : ℕ × ℕ × ℕ → ℕ → ℚ) (k' : ℕ) (es fs : Sentence),
        ∀ x ∈ decoderLines t q k' es fs, ∃ i : ℕ, i < fs.length ∧
          0 < (findAlignments t q es fs).getD i 0 ∧
          x = (k' + 1, (findAlignments t q es fs).getD i 0, i + 1)) := by
  refine ⟨?_, ?_, ?_, ?_⟩
  · intro i j hij hj
    unfold symLines
    refine List.mem_map.mpr ⟨(i, j), ?_, rfl⟩
    rw [List.mem_filter]
    constructor
    · rw [sortedAlignment, Finset.mem_sort]
      exact hij
    · simpa using hj
  · intro x hx
    unfold symLines at hx
    rcases List.mem_map.mp hx with ⟨p, hp, hpx⟩
    rw [List.mem_filter] at hp
    refine ⟨p.1, p.2, ?_, by simpa using hp.2, hpx.symm⟩
    have := hp.1
    rw [sortedAlignment, Finset.mem_sort] at this
    exact this
  · unfold symLines
    rw [List.pairwise_map]
    exact List.Pairwise.filter _ (Finset.sort_sorted pairLe A)
  · intro t q k' es fs x hx
    unfold decoderLines at hx
    rcases List.mem_filterMap.mp hx with ⟨i, hi, hfi⟩
    rw [List.mem_range] at hi
    by_cases h : 0 < (findAlignments t q es fs).getD i 0
    · rw [if_pos h] at hfi
      exact ⟨i, hi, h, (Option.some.injEq _ _).mp hfi |>.symm⟩
    · rw [if_neg h] at hfi
      cases hfi

/-- Closed instance of `c2_symmetrizer_output_format`: the pair `(1, 2)` with
positive english position 2 yields the output line `(3, 2, 1)`. -/
theorem c2_symmetrizer_output_format_witness :
    ((3 : ℤ), (2 : ℤ), (1 : ℤ)) ∈ symLines 3 {((1 : ℤ), (2 : ℤ))} :=
  (c2_symmetrizer_output_format 3 {((1 : ℤ), (2 : ℤ))}).1 1 2 (by decide) (by decide)

/-! ## Claim C3: decoder argmax with lowest-index tie-break -/

lemma argmaxFold_spec (f : ℕ → ℚ) (l : ℕ) :
    (argmaxFold f l).2 ≤ l ∧ (argmaxFold f l).1 = f (argmaxFold f l).2 ∧
      (∀ j ≤ l, f j ≤ (argmaxFold f l).1) ∧
      (∀ j ≤ l, f j = (argmaxFold f l).1 → (argmaxFold f l).2 ≤ j) := by
  induction l with
  | zero =>
    refine ⟨Nat.le_refl 0, rfl, ?_, ?_⟩
    · intro j hj
      interval_cases j
      exact le_refl _
    · intro j hj _
      exact Nat.zero_le j
  | succ l ih =>
    have hconcat : argmaxFold f (l + 1) =
        if f (l + 1) > (argmaxFold f l).1 then (f (l + 1), l + 1) else argmaxFold f l := by
      unfold argmaxFold
      rw [List.range'_concat, List.foldl_append]
      simp only [List.foldl_cons, List.foldl_nil]
      have harith : 1 + 1 * l = l + 1 := by omega
      rw [harith]
    by_cases h : f (l + 1) > (argmaxFold f l).1
    · rw [hconcat, if_pos h]
      refine ⟨Nat.le_refl _, rfl, ?_, ?_⟩
      · intro j hj
        rcases Nat.lt_succ_iff_lt_or_eq.mp (Nat.lt_succ_of_le hj) with hj2 | hj2
        · exact le_of_lt (lt_of_le_of_lt (ih.2.2.1 j (Nat.lt_succ_iff.mp hj2)) h)
        · rw [hj2]
      · intro j hj heq
        rcases Nat.lt_succ_iff_lt_or_eq.mp (Nat.lt_succ_of_le hj) with hj2 | hj2
        · exact absurd heq
            (ne_of_lt (lt_of_le_of_lt (ih.2.2.1 j (Nat.lt_succ_iff.mp hj2)) h))
        · omega
    · rw [hconcat, if_neg h]
      refine ⟨Nat.le_succ_of_le ih.1, ih.2.1, ?_, ?_⟩
      · intro j hj
        rcases Nat.lt_succ_iff_lt_or_eq.mp (Nat.lt_succ_of_le hj) with hj2 | hj2
        · exact ih.2.2.1 j (Nat.lt_succ_iff.mp hj2)
        · rw [hj2]
          exact le_of_not_lt h
      · intro j hj heq
        rcases Nat.lt_succ_iff_lt_or_eq.mp (Nat.lt_succ_of_le hj) with hj2 | hj2
        · exact ih.2.2.2 j (Nat.lt_succ_iff.mp hj2) heq
        · omega

/-- C3: for every sentence pair and foreign position `i` in `1..m`, the
decoder's chosen english position maximizes
`q(j|i,l,m) * t(f_i|e_j)` over `j` in `{0, ..., l}`, and on exact ties it is
the smallest maximizing index (strictly-greater scan from `j = 0`). -/
theorem c3_decoder_lowest_argmax (t : String → String → ℚ)
    (q : ℕ × ℕ × ℕ → ℕ → ℚ) (es fs : Sentence) (i : ℕ)
    (h1 : 1 ≤ i) (h2 : i ≤ fs.length) :
    bestAlignment t q es fs i ≤ es.length ∧
      (∀ j ≤ es.length,
        score t q es fs i j ≤ score t q es fs i (bestAlignment t q es fs i)) ∧
      (∀ j ≤ es.length,
        score t q es fs i j = score t q es fs i (bestAlignment t q es fs i) →
          bestAlignment t q es fs i ≤ j) := by
  have h := argmaxFold_spec (fun j => score t q es fs i j) es.length
  have hb : bestAlignment t q es fs i =
      (argmaxFold (fun j => score t q es fs i j) es.length).2 := rfl
  rw [hb]
  refine ⟨h.1, ?_, ?_⟩
  · intro j hj
    have h3 := h.2.2.1 j hj
    rwa [h.2.1] at h3
  · intro j hj heq
    refine h.2.2.2 j hj ?_
    rw [h.2.1]
    exact heq

/-- Closed instance of `c3_decoder_lowest_argmax` on the tables `t1x`, `q1x`
and the sentence pair `("a a", "x")` at foreign position 1. -/
theorem c3_decoder_lowest_argmax_witness :
    bestAlignment t1x q1x ["a", "a"] ["x"] 1 ≤ 2 ∧
      score t1x q1x ["a", "a"] ["x"] 1 0 ≤
        score t1x q1x ["a", "a"] ["x"] 1 (bestAlignment t1x q1x ["a", "a"] ["x"] 1) :=
  ⟨(c3_decoder_lowest_argmax t1x q1x ["a", "a"] ["x"] 1 (by decide) (by decide)).1,
    (c3_decoder_lowest_argmax t1x q1x ["a", "a"] ["x"] 1 (by decide) (by decide)).2.1 0
      (by decide)⟩

/-! ## Claim C8: fatal count-mismatch handling -/

/-- C8: reading the two corpus files (resp. the two alignment files) with
differing sentence counts (resp. differing distinct-key counts) reports the
data-mismatch message with exit status 1 before any training (resp.
symmetrization) runs — the `train` stage is arbitrary and never applied —
and equal counts produce no such error. -/
theorem c8_count_mismatch_exits (es fs : List Sentence) {α : Type}
    (train : Corpus → α) (eL fL : List (ℤ × ℤ × ℤ)) :
    corpusMismatch.2 = 1 ∧ alignMismatch.2 = 1 ∧
      (fs.length ≠ es.length → emMain es fs train = Except.error corpusMismatch) ∧
      (fs.length = es.length → emMain es fs train = Except.ok (train ⟨es, fs⟩)) ∧
      ((alignKeys fL).card ≠ (alignKeys eL).card →
        symMain eL fL = Except.error alignMismatch) ∧
      ((alignKeys fL).card = (alignKeys eL).card →
        symMain eL fL = Except.ok (symLoop eL fL (alignKeys eL).card)) := by
  refine ⟨rfl, rfl, ?_, ?_, ?_, ?_⟩
  · intro h
    simp [emMain, readCorpus, h, Except.map]
  · intro h
    simp [emMain, readCorpus, h, Except.map]
  · intro h
    simp [symMain, readAlignments, h, Except.map]
  · intro h
    simp [symMain, readAlignments, h, Except.map]

/-- Closed instance of `c8_count_mismatch_exits`: a one-sentence english
corpus with an empty foreign corpus exits with the mismatch error; matched
counts succeed; mismatched alignment key counts exit with the mismatch
error. -/
theorem c8_count_mismatch_exits_witness :
    emMain [["hello"]] [] (fun C => C.es.length) = Except.error corpusMismatch ∧
      emMain [["hello"]] [["bonjour"]] (fun C => C.es.length) = Except.ok 1 ∧
      symMain [((1 : ℤ), (1 : ℤ), (1 : ℤ))] [] = Except.error alignMismatch :=
  ⟨(c8_count_mismatch_exits [["hello"]] [] (fun C => C.es.length) [] []).2.2.1
      (by decide),
    (c8_count_mismatch_exits [["hello"]] [["bonjour"]] (fun C => C.es.length) [] []).2.2.2.1
      (by decide),
    (c8_count_mismatch_exits [] [] (fun C => C.es.length)
        [((1 : ℤ), (1 : ℤ), (1 : ℤ))] []).2.2.2.2.1 (by decide)⟩

/-! ## Claim C10: the symmetrizer driver assumes sentence keys 1..n -/

lemma foldl_symStep_error (eL fL : List (ℤ × ℤ × ℤ)) (l : List ℕ) (e : ℤ) :
    l.foldl (symStep eL fL) (Except.error e) = Except.error e := by
  induction l with
  | nil => rfl
  | cons a l ih =>
    rw [List.foldl_cons,
      show symStep eL fL (Except.error e) a = Except.error e from rfl]
    exact ih

lemma foldl_symStep_ok_iff (eL fL : List (ℤ × ℤ × ℤ)) (l : List ℕ)
    (outs0 : List (ℤ × ℤ × ℤ)) :
    (∃ outs, l.foldl (symStep eL fL) (Except.ok outs0) = Except.ok outs) ↔
      ∀ idx ∈ l, ((idx : ℤ) + 1) ∈ alignKeys eL ∧ ((idx : ℤ) + 1) ∈ alignKeys fL := by
  induction l generalizing outs0 with
  | nil => simp
  | cons a l ih =>
    simp only [List.foldl_cons, List.mem_cons]
    by_cases h1 : ((a : ℤ) + 1) ∈ alignKeys eL
    · by_cases h2 : ((a : ℤ) + 1) ∈ alignKeys fL
      · have hstep : symStep eL fL (Except.ok outs0) a =
            Except.ok (outs0 ++
              improveOne (aeSet eL ((a : ℤ) + 1)) (afSet fL ((a : ℤ) + 1)) ((a : ℤ) + 1)) := by
          simp [symStep, h1, h2, Except.bind]
        rw [hstep, ih]
        constructor
        · intro hall idx hidx
          rcases hidx with rfl | hmem
          · exact ⟨h1, h2⟩
          · exact hall idx hmem
        · intro hall idx hidx
          exact hall idx (Or.inr hidx)
      · have hstep : symStep eL fL (Except.ok outs0) a = Except.error ((a : ℤ) + 1) := by
          simp [symStep, h1, h2, Except.bind]
        rw [hstep, foldl_symStep_error]
        constructor
        · rintro ⟨outs, h⟩
          cases h
        · intro hall
          exact absurd (hall a (Or.inl rfl)).2 h2
    · have hstep : symStep eL fL (Except.ok outs0) a = Except.error ((a : ℤ) + 1) := by
        simp [symStep, h1, Except.bind]
      rw [hstep, foldl_symStep_error]
      constructor
      · rintro ⟨outs, h⟩
        cases h
      · intro hall
        exact absurd (hall a (Or.inl rfl)).1 h1

/-- C10: the driver of improve_alignments.py iterates `k` from 1 to
`n = len(self.ae)` (the number of distinct sentence indices of the
english-direction file) and looks both per-sentence sets up by key, so any
`k` in `1..n` missing from either file causes an unrecovered missing-key
fault instead of an empty per-sentence result; when every `k` in `1..n` is
present in both files the loop completes normally. -/
theorem c10_driver_missing_key_fault (eL fL : List (ℤ × ℤ × ℤ)) :
    (∀ k0 : ℤ, 1 ≤ k0 → k0 ≤ ((alignKeys eL).card : ℤ) →
      (k0 ∉ alignKeys eL ∨ k0 ∉ alignKeys fL) →
        ∃ kerr, symLoop eL fL (alignKeys eL).card = Except.error kerr) ∧
      ((∀ k0 : ℤ, 1 ≤ k0 → k0 ≤ ((alignKeys eL).card : ℤ) →
          k0 ∈ alignKeys eL ∧ k0 ∈ alignKeys fL) →
        ∃ outs, symLoop eL fL (alignKeys eL).card = Except.ok outs) := by
  constructor
  · intro k0 hk1 hk2 hmiss
    cases hres : symLoop eL fL (alignKeys eL).card with
    | error e => exact ⟨e, rfl⟩
    | ok outs =>
      exfalso
      have hiff := (foldl_symStep_ok_iff eL fL (List.range (alignKeys eL).card) []).mp
        ⟨outs, hres⟩
      have hidx : (k0 - 1).toNat ∈ List.range (alignKeys eL).card := by
        rw [List.mem_range]
        omega
      have hcast : (((k0 - 1).toNat : ℤ) + 1) = k0 := by
        omega
      have hmem := hiff (k0 - 1).toNat hidx
      rw [hcast] at hmem
      rcases hmiss with h | h
      · exact h hmem.1
      · exact h hmem.2
  · intro hall
    refine (foldl_symStep_ok_iff eL fL (List.range (alignKeys eL).card) []).mpr ?_
    intro idx hidx
    rw [List.mem_range] at hidx
    refine hall ((idx : ℤ) + 1) (by omega) (by omega)
/-- Closed instance of `c10_driver_missing_key_fault`: the english-direction
file has lines for sentences 2 and 3 only, so `n = 2` and the missing key
`k = 1` faults even though the key counts of the two files agree. -/
theorem c10_driver_missing_key_fault_witness :
    ∃ kerr, symLoop [((2 : ℤ), (1 : ℤ), (1 : ℤ)), ((3 : ℤ), (1 : ℤ), (1 : ℤ))]
        [((1 : ℤ), (1 : ℤ), (1 : ℤ)), ((2 : ℤ), (1 : ℤ), (1 : ℤ))]
        (alignKeys [((2 : ℤ), (1 : ℤ), (1 : ℤ)), ((3 : ℤ), (1 : ℤ), (1 : ℤ))]).card =
      Except.error kerr :=
  (c10_driver_missing_key_fault _ _).1 1 (by decide) (by decide) (by decide)

/-! ## List-sum and support helpers for the EM proofs -/

lemma listSum_nonneg {α : Type} (l : List α) (g : α → ℚ) (h : ∀ x ∈ l, 0 ≤ g x) :
    0 ≤ (l.map g).sum := by
  induction l with
  | nil => simp
  | cons a l ih =>
    simp only [List.map_cons, List.sum_cons]
    have h1 := h a (List.mem_cons_self a l)
    have h2 := ih (fun x hx => h x (List.mem_cons_of_mem a hx))
    linarith

lemma listSum_pos {α : Type} (l : List α) (g : α → ℚ) (x : α) (hx : x ∈ l)
    (hpos : 0 < g x) (h : ∀ y ∈ l, 0 ≤ g y) : 0 < (l.map g).sum := by
  rcases List.append_of_mem hx with ⟨s, u, rfl⟩
  rw [List.map_append, List.sum_append, List.map_cons, List.sum_cons]
  have h1 : 0 ≤ (s.map g).sum :=
    listSum_nonneg s g (fun y hy => h y (by simp [hy]))
  have h2 : 0 ≤ (u.map g).sum :=
    listSum_nonneg u g (fun y hy => h y (by simp [hy]))
  linarith

lemma listSum_zero {α : Type} (l : List α) (g : α → ℚ) (h : ∀ x ∈ l, g x = 0) :
    (l.map g).sum = 0 := by
  rw [List.sum_eq_zero]
  intro y hy
  rcases List.mem_map.mp hy with ⟨x, hx, rfl⟩
  exact h x hx

lemma listSum_congr {α : Type} (l : List α) (g g' : α → ℚ)
    (h : ∀ x ∈ l, g x = g' x) : (l.map g).sum = (l.map g').sum := by
  rw [List.map_congr_left h]

lemma finsetSum_listSum {α β : Type} [DecidableEq α] (S : Finset α) (l : List β)
    (g : α → β → ℚ) :
    ∑ a ∈ S, (l.map (g a)).sum = (l.map (fun b => ∑ a ∈ S, g a b)).sum := by
  induction l with
  | nil => simp
  | cons b l ih => simp [Finset.sum_add_distrib, ih]

lemma mem_foldr_union {α β : Type} [DecidableEq β] (l : List α) (g : α → Finset β)
    (b : β) : b ∈ (l.map g).foldr (· ∪ ·) ∅ ↔ ∃ x ∈ l, b ∈ g x := by
  induction l with
  | nil => simp
  | cons a l ih => simp [ih]

lemma mem_tSupport_iff (C : Corpus) (e f : String) :
    f ∈ tSupport C e ↔ ∃ pr ∈ C.pairs, (e = NULL ∨ e ∈ pr.1) ∧ f ∈ pr.2 := by
  unfold tSupport
  rw [mem_foldr_union]
  constructor
  · rintro ⟨pr, hpr, hmem⟩
    unfold sentenceSupport at hmem
    by_cases h : e = NULL ∨ e ∈ pr.1
    · rw [if_pos h] at hmem
      exact ⟨pr, hpr, h, List.mem_toFinset.mp hmem⟩
    · rw [if_neg h] at hmem
      exact absurd hmem (Finset.not_mem_empty f)
  · rintro ⟨pr, hpr, h, hf⟩
    refine ⟨pr, hpr, ?_⟩
    unfold sentenceSupport
    rw [if_pos h]
    exact List.mem_toFinset.mpr hf

lemma mem_qKeys_iff (C : Corpus) (i l m : ℕ) :
    (i, l, m) ∈ qKeys C ↔
      ∃ pr ∈ C.pairs, l = pr.1.length ∧ m = pr.2.length ∧ 1 ≤ i ∧ i ≤ pr.2.length := by
  unfold qKeys
  rw [mem_foldr_union]
  constructor
  · rintro ⟨pr, hpr, hmem⟩
    rw [List.mem_toFinset, List.mem_map] at hmem
    rcases hmem with ⟨i', hi', heq⟩
    rw [List.mem_range'_1] at hi'
    rw [Prod.ext_iff, Prod.ext_iff] at heq
    obtain ⟨h1, h2, h3⟩ := heq
    simp only at h1 h2 h3
    refine ⟨pr, hpr, h2.symm, h3.symm, ?_, ?_⟩ <;> omega
  · rintro ⟨pr, hpr, hl, hm, hi1, hi2⟩
    refine ⟨pr, hpr, ?_⟩
    rw [List.mem_toFinset, List.mem_map]
    refine ⟨i, ?_, by rw [hl, hm]⟩
    rw [List.mem_range'_1]
    omega

lemma nth_mem (s : Sentence) (idx : ℕ) (h : idx < s.length) : nth s idx ∈ s := by
  unfold nth
  rw [List.getD_eq_getElem s "" h]
  exact List.getElem_mem h

lemma eAt_null_or_mem (es : Sentence) (j : ℕ) (hj : j ≤ es.length) :
    eAt es j = NULL ∨ eAt es j ∈ es := by
  unfold eAt
  by_cases h : j = 0
  · rw [if_pos h]
    exact Or.inl rfl
  · rw [if_neg h]
    exact Or.inr (nth_mem es (j - 1) (by omega))

lemma mem_null_cons_iff (es : Sentence) (e : String) :
    e ∈ NULL :: es ↔ e = NULL ∨ e ∈ es := by
  simp

/-! ## Positivity lemmas (claim C9 machinery) -/

lemma z1_pos (C : Corpus) (t : String → String → ℚ) (es fs : Sentence)
    (hpr : (es, fs) ∈ C.pairs) (f : String) (hf : f ∈ fs) (ht : TPos C t) :
    0 < z1 t es f := by
  unfold z1
  have h0 : 0 < t NULL f :=
    ht NULL f ((mem_tSupport_iff C NULL f).mpr ⟨(es, fs), hpr, Or.inl rfl, hf⟩)
  have h1 : 0 ≤ (es.map (fun e => t e f)).sum := by
    refine listSum_nonneg es _ (fun e he => le_of_lt ?_)
    exact ht e f ((mem_tSupport_iff C e f).mpr ⟨(es, fs), hpr, Or.inr he, hf⟩)
  linarith

lemma delta1_pos (C : Corpus) (t : String → String → ℚ) (es fs : Sentence)
    (hpr : (es, fs) ∈ C.pairs) (ht : TPos C t) (e : String)
    (he : e = NULL ∨ e ∈ es) (f : String) (hf : f ∈ fs) :
    0 < delta1 t es (e, f) := by
  unfold delta1
  refine div_pos ?_ (z1_pos C t es fs hpr f hf ht)
  exact ht e f ((mem_tSupport_iff C e f).mpr ⟨(es, fs), hpr, he, hf⟩)

lemma z2_pos (C : Corpus) (t : String → String → ℚ) (q : ℕ × ℕ × ℕ → ℕ → ℚ)
    (es fs : Sentence) (hpr : (es, fs) ∈ C.pairs) (i : ℕ)
    (hi1 : 1 ≤ i) (hi2 : i ≤ fs.length) (ht : TPos C t) (hq : QPos C q) :
    0 < z2 t q es fs i := by
  unfold z2
  have hkey : (i, es.length, fs.length) ∈ qKeys C :=
    (mem_qKeys_iff C i es.length fs.length).mpr ⟨(es, fs), hpr, rfl, rfl, hi1, hi2⟩
  have hfmem : nth fs (i - 1) ∈ fs := nth_mem fs (i - 1) (by omega)
  have h0 : 0 < q (i, es.length, fs.length) 0 * t NULL (nth fs (i - 1)) := by
    refine mul_pos (hq i es.length fs.length 0 hkey (Nat.zero_le _)) ?_
    exact ht NULL _ ((mem_tSupport_iff C NULL _).mpr ⟨(es, fs), hpr, Or.inl rfl, hfmem⟩)
  have h1 : 0 ≤ ((List.range' 1 es.length).map
      (fun j => q (i, es.length, fs.length) j * t (nth es (j - 1)) (nth fs (i - 1)))).sum := by
    refine listSum_nonneg _ _ (fun j hj => ?_)
    rw [List.mem_range'_1] at hj
    refine le_of_lt (mul_pos (hq i es.length fs.length j hkey (by omega)) ?_)
    have hemem : nth es (j - 1) ∈ es := nth_mem es (j - 1) (by omega)
    exact ht _ _ ((mem_tSupport_iff C _ _).mpr ⟨(es, fs), hpr, Or.inr hemem, hfmem⟩)
  linarith

lemma deltaWrites_val_pos (C : Corpus) (t : String → String → ℚ)
    (q : ℕ × ℕ × ℕ → ℕ → ℚ) (es fs : Sentence) (hpr : (es, fs) ∈ C.pairs)
    (ht : TPos C t) (hq : QPos C q) :
    ∀ w ∈ deltaWrites t q es fs, 0 < w.2 := by
  intro w hw
  unfold deltaWrites at hw
  rw [List.mem_flatten] at hw
  rcases hw with ⟨sub, hsub, hwsub⟩
  rw [List.mem_map] at hsub
  rcases hsub with ⟨i, hi, rfl⟩
  rw [List.mem_range'_1] at hi
  have hkey : (i, es.length, fs.length) ∈ qKeys C :=
    (mem_qKeys_iff C i es.length fs.length).mpr
      ⟨(es, fs), hpr, rfl, rfl, by omega, by show i ≤ fs.length; omega⟩
  have hfmem : nth fs (i - 1) ∈ fs := nth_mem fs (i - 1) (by omega)
  have hz := z2_pos C t q es fs hpr i (by omega) (by omega) ht hq
  rcases List.mem_cons.mp hwsub with rfl | hwsub2
  · refine div_pos (mul_pos (hq i es.length fs.length 0 hkey (Nat.zero_le _)) ?_) hz
    exact ht NULL _ ((mem_tSupport_iff C NULL _).mpr ⟨(es, fs), hpr, Or.inl rfl, hfmem⟩)
  · rw [List.mem_map] at hwsub2
    rcases hwsub2 with ⟨j, hj, rfl⟩
    rw [List.mem_range'_1] at hj
    refine div_pos (mul_pos (hq i es.length fs.length j hkey (by omega)) ?_) hz
    have hemem : nth es (j - 1) ∈ es := nth_mem es (j - 1) (by omega)
    exact ht _ _ ((mem_tSupport_iff C _ _).mpr ⟨(es, fs), hpr, Or.inr hemem, hfmem⟩)

lemma foldl_update_cases {κ : Type} [DecidableEq κ] (writes : List (κ × ℚ))
    (d0 : κ → ℚ) (p : κ) :
    ((writes.foldl (fun d w => Function.update d w.1 w.2) d0) p = d0 p ∧
        p ∉ writes.map Prod.fst) ∨
      ∃ w ∈ writes, (writes.foldl (fun d w => Function.update d w.1 w.2) d0) p = w.2 := by
  induction writes generalizing d0 with
  | nil => exact Or.inl ⟨rfl, by simp⟩
  | cons w ws ih =>
    simp only [List.foldl_cons]
    rcases ih (Function.update d0 w.1 w.2) with ⟨hval, hnot⟩ | ⟨w', hw', hval⟩
    · by_cases hp : p = w.1
      · right
        refine ⟨w, List.mem_cons_self w ws, ?_⟩
        rw [hval, hp, Function.update_same]
      · left
        refine ⟨?_, ?_⟩
        · rw [hval, Function.update_noteq hp]
        · simp only [List.map_cons, List.mem_cons]
          push_neg
          exact ⟨hp, by simpa using hnot⟩
    · exact Or.inr ⟨w', List.mem_cons_of_mem w hw', hval⟩

lemma delta2_nonneg (C : Corpus) (t : String → String → ℚ)
    (q : ℕ × ℕ × ℕ → ℕ → ℚ) (es fs : Sentence) (hpr : (es, fs) ∈ C.pairs)
    (ht : TPos C t) (hq : QPos C q) (p : String × String) :
    0 ≤ delta2 t q es fs p := by
  unfold delta2
  rcases foldl_update_cases (deltaWrites t q es fs) (fun _ => 0) p with
    ⟨hval, _⟩ | ⟨w, hw, hval⟩
  · rw [hval]
  · rw [hval]
    exact le_of_lt (deltaWrites_val_pos C t q es fs hpr ht hq w hw)

lemma deltaWrites_key (t : String → String → ℚ) (q : ℕ × ℕ × ℕ → ℕ → ℚ)
    (es fs : Sentence) (e f : String) (he : e = NULL ∨ e ∈ es) (hf : f ∈ fs) :
    (e, f) ∈ (deltaWrites t q es fs).map Prod.fst := by
  rcases List.mem_iff_getElem.mp hf with ⟨i0, hi0, hfi⟩
  have hnth : nth fs (i0 + 1 - 1) = f := by
    simp only [Nat.add_sub_cancel]
    rw [nth, List.getD_eq_getElem fs "" hi0]
    exact hfi
  rw [List.mem_map]
  unfold deltaWrites
  rcases he with rfl | hemem
  · refine ⟨((NULL, nth fs (i0 + 1 - 1)),
      q (i0 + 1, es.length, fs.length) 0 * t NULL (nth fs (i0 + 1 - 1)) /
        z2 t q es fs (i0 + 1)), ?_, by rw [hnth]⟩
    rw [List.mem_flatten]
    refine ⟨_, List.mem_map.mpr ⟨i0 + 1, ?_, rfl⟩, List.mem_cons_self _ _⟩
    rw [List.mem_range'_1]
    omega
  · rcases List.mem_iff_getElem.mp hemem with ⟨j0, hj0, hej⟩
    have hnthe : nth es (j0 + 1 - 1) = e := by
      simp only [Nat.add_sub_cancel]
      rw [nth, List.getD_eq_getElem es "" hj0]
      exact hej
    refine ⟨((nth es (j0 + 1 - 1), nth fs (i0 + 1 - 1)),
      q (i0 + 1, es.length, fs.length) (j0 + 1) *
        t (nth es (j0 + 1 - 1)) (nth fs (i0 + 1 - 1)) / z2 t q es fs (i0 + 1)),
      ?_, by rw [hnth, hnthe]⟩
    rw [List.mem_flatten]
    refine ⟨_, List.mem_map.mpr ⟨i0 + 1, ?_, rfl⟩, ?_⟩
    · rw [List.mem_range'_1]
      omega
    · refine List.mem_cons_of_mem _ (List.mem_map.mpr ⟨j0 + 1, ?_, rfl⟩)
      rw [List.mem_range'_1]
      omega

lemma delta2_pos (C : Corpus) (t : String → String → ℚ)
    (q : ℕ × ℕ × ℕ → ℕ → ℚ) (es fs : Sentence) (hpr : (es, fs) ∈ C.pairs)
    (ht : TPos C t) (hq : QPos C q) (e : String) (he : e = NULL ∨ e ∈ es)
    (f : String) (hf : f ∈ fs) : 0 < delta2 t q es fs (e, f) := by
  unfold delta2
  rcases foldl_update_cases (deltaWrites t q es fs) (fun _ => 0) (e, f) with
    ⟨_, hnot⟩ | ⟨w, hw, hval⟩
  · exact absurd (deltaWrites_key t q es fs e f he hf) hnot
  · rw [hval]
    exact deltaWrites_val_pos C t q es fs hpr ht hq w hw

lemma cEF_nonneg (d : String × String → ℚ) (es fs : Sentence) (p : String × String)
    (hd : ∀ e ∈ NULL :: es, ∀ f ∈ fs, 0 ≤ d (e, f)) : 0 ≤ cEF d es fs p := by
  unfold cEF
  refine listSum_nonneg _ _ (fun e he => ?_)
  refine listSum_nonneg _ _ (fun f hf => ?_)
  by_cases h : p = (e, f)
  · rw [if_pos h]
    exact hd e he f hf
  · rw [if_neg h]

lemma cE_nonneg (d : String × String → ℚ) (es fs : Sentence) (e0 : String)
    (hd : ∀ e ∈ NULL :: es, ∀ f ∈ fs, 0 ≤ d (e, f)) : 0 ≤ cE d es fs e0 := by
  unfold cE
  refine listSum_nonneg _ _ (fun e he => ?_)
  refine listSum_nonneg _ _ (fun f hf => ?_)
  by_cases h : e0 = e
  · rw [if_pos h]
    exact hd e he f hf
  · rw [if_neg h]

lemma cEF_pos (d : String × String → ℚ) (es fs : Sentence) (e0 f0 : String)
    (he : e0 = NULL ∨ e0 ∈ es) (hf : f0 ∈ fs)
    (hd : ∀ e ∈ NULL :: es, ∀ f ∈ fs, 0 ≤ d (e, f)) (hdpos : 0 < d (e0, f0)) :
    0 < cEF d es fs (e0, f0) := by
  unfold cEF
  have hemem : e0 ∈ NULL :: es := (mem_null_cons_iff es e0).mpr he
  refine listSum_pos _ _ e0 hemem ?_ ?_
  · refine listSum_pos _ _ f0 hf ?_ ?_
    · rw [if_pos rfl]
      exact hdpos
    · intro f hfm
      by_cases h : (e0, f0) = (e0, f)
      · rw [if_pos h]
        exact hd e0 hemem f hfm
      · rw [if_neg h]
  · intro e hem
    refine listSum_nonneg _ _ (fun f hfm => ?_)
    by_cases h : (e0, f0) = (e, f)
    · rw [if_pos h]
      exact hd e hem f hfm
    · rw [if_neg h]

lemma cE_pos (d : String × String → ℚ) (es fs : Sentence) (e0 f0 : String)
    (he : e0 = NULL ∨ e0 ∈ es) (hf : f0 ∈ fs)
    (hd : ∀ e ∈ NULL :: es, ∀ f ∈ fs, 0 ≤ d (e, f)) (hdpos : 0 < d (e0, f0)) :
    0 < cE d es fs e0 := by
  unfold cE
  have hemem : e0 ∈ NULL :: es := (mem_null_cons_iff es e0).mpr he
  refine listSum_pos _ _ e0 hemem ?_ ?_
  · refine listSum_pos _ _ f0 hf ?_ ?_
    · rw [if_pos rfl]
      exact hdpos
    · intro f hfm
      rw [if_pos rfl]
      exact hd e0 hemem f hfm
  · intro e hem
    refine listSum_nonneg _ _ (fun f hfm => ?_)
    by_cases h : e0 = e
    · rw [if_pos h]
      exact hd e hem f hfm
    · rw [if_neg h]

lemma cQ4_nonneg (d : String × String → ℚ) (es fs : Sentence) (key : ℕ × ℕ × ℕ × ℕ)
    (hd : ∀ e ∈ NULL :: es, ∀ f ∈ fs, 0 ≤ d (e, f)) : 0 ≤ cQ4 d es fs key := by
  unfold cQ4
  refine listSum_nonneg _ _ (fun j hj => ?_)
  rw [List.mem_range] at hj
  refine listSum_nonneg _ _ (fun i hi => ?_)
  rw [List.mem_range'_1] at hi
  by_cases h : key = (i, es.length, fs.length, j)
  · rw [if_pos h]
    exact hd _ ((mem_null_cons_iff es _).mpr (eAt_null_or_mem es j (by omega))) _
      (nth_mem fs (i - 1) (by omega))
  · rw [if_neg h]

lemma cQ3_nonneg (d : String × String → ℚ) (es fs : Sentence) (key : ℕ × ℕ × ℕ)
    (hd : ∀ e ∈ NULL :: es, ∀ f ∈ fs, 0 ≤ d (e, f)) : 0 ≤ cQ3 d es fs key := by
  unfold cQ3
  refine listSum_nonneg _ _ (fun j hj => ?_)
  rw [List.mem_range] at hj
  refine listSum_nonneg _ _ (fun i hi => ?_)
  rw [List.mem_range'_1] at hi
  by_cases h : key = (i, es.length, fs.length)
  · rw [if_pos h]
    exact hd _ ((mem_null_cons_iff es _).mpr (eAt_null_or_mem es j (by omega))) _
      (nth_mem fs (i - 1) (by omega))
  · rw [if_neg h]

lemma cQ4_pos (d : String × String → ℚ) (es fs : Sentence) (i j : ℕ)
    (hi1 : 1 ≤ i) (hi2 : i ≤ fs.length) (hj : j ≤ es.length)
    (hd : ∀ e ∈ NULL :: es, ∀ f ∈ fs, 0 ≤ d (e, f))
    (hdpos : 0 < d (eAt es j, nth fs (i - 1))) :
    0 < cQ4 d es fs (i, es.length, fs.length, j) := by
  unfold cQ4
  refine listSum_pos _ _ j (List.mem_range.mpr (by omega)) ?_ ?_
  · refine listSum_pos _ _ i (List.mem_range'_1.mpr (by omega)) ?_ ?_
    · rw [if_pos rfl]
      exact hdpos
    · intro i' hi'
      rw [List.mem_range'_1] at hi'
      by_cases h : (i, es.length, fs.length, j) = (i', es.length, fs.length, j)
      · rw [if_pos h]
        exact hd _ ((mem_null_cons_iff es _).mpr (eAt_null_or_mem es j hj)) _
          (nth_mem fs (i' - 1) (by omega))
      · rw [if_neg h]
  · intro j' hj'
    rw [List.mem_range] at hj'
    refine listSum_nonneg _ _ (fun i' hi' => ?_)
    rw [List.mem_range'_1] at hi'
    by_cases h : (i, es.length, fs.length, j) = (i', es.length, fs.length, j')
    · rw [if_pos h]
      exact hd _ ((mem_null_cons_iff es _).mpr (eAt_null_or_mem es j' (by omega))) _
        (nth_mem fs (i' - 1) (by omega))
    · rw [if_neg h]

lemma cQ3_pos (d : String × String → ℚ) (es fs : Sentence) (i : ℕ)
    (hi1 : 1 ≤ i) (hi2 : i ≤ fs.length)
    (hd : ∀ e ∈ NULL :: es, ∀ f ∈ fs, 0 ≤ d (e, f))
    (hdpos : 0 < d (NULL, nth fs (i - 1))) :
    0 < cQ3 d es fs (i, es.length, fs.length) := by
  unfold cQ3
  refine listSum_pos _ _ 0 (List.mem_range.mpr (by omega)) ?_ ?_
  · refine listSum_pos _ _ i (List.mem_range'_1.mpr (by omega)) ?_ ?_
    · rw [if_pos rfl]
      exact hdpos
    · intro i' hi'
      rw [List.mem_range'_1] at hi'
      by_cases h : (i, es.length, fs.length) = (i', es.length, fs.length)
      · rw [if_pos h]
        exact hd _ ((mem_null_cons_iff es _).mpr (eAt_null_or_mem es 0 (by omega))) _
          (nth_mem fs (i' - 1) (by omega))
      · rw [if_neg h]
  · intro j' hj'
    rw [List.mem_range] at hj'
    refine listSum_nonneg _ _ (fun i' hi' => ?_)
    rw [List.mem_range'_1] at hi'
    by_cases h : (i, es.length, fs.length) = (i', es.length, fs.length)
    · rw [if_pos h]
      exact hd _ ((mem_null_cons_iff es _).mpr (eAt_null_or_mem es j' (by omega))) _
        (nth_mem fs (i' - 1) (by omega))
    · rw [if_neg h]

lemma delta1_nonneg_all (C : Corpus) (t : String → String → ℚ) (pr : Sentence × Sentence)
    (hpr : pr ∈ C.pairs) (ht : TPos C t) :
    ∀ e ∈ NULL :: pr.1, ∀ f ∈ pr.2, 0 ≤ delta1 t pr.1 (e, f) :=
  fun e hem f hfm =>
    le_of_lt (delta1_pos C t pr.1 pr.2 hpr ht e ((mem_null_cons_iff _ _).mp hem) f hfm)

lemma delta2_nonneg_all (C : Corpus) (t : String → String → ℚ)
    (q : ℕ × ℕ × ℕ → ℕ → ℚ) (pr : Sentence × Sentence)
    (hpr : pr ∈ C.pairs) (ht : TPos C t) (hq : QPos C q) :
    ∀ e ∈ NULL :: pr.1, ∀ f ∈ pr.2, 0 ≤ delta2 t q pr.1 pr.2 (e, f) :=
  fun _e _hem _f _hfm => delta2_nonneg C t q pr.1 pr.2 hpr ht hq _

lemma countEF1_pos (C : Corpus) (t : String → String → ℚ) (ht : TPos C t)
    (e f : String) (hf : f ∈ tSupport C e) : 0 < countEF1 t C (e, f) := by
  rcases (mem_tSupport_iff C e f).mp hf with ⟨pr, hpr, he, hfm⟩
  unfold countEF1
  refine listSum_pos _ _ pr hpr ?_ ?_
  · exact cEF_pos _ pr.1 pr.2 e f he hfm (delta1_nonneg_all C t pr hpr ht)
      (delta1_pos C t pr.1 pr.2 hpr ht e he f hfm)
  · intro pr' hpr'
    exact cEF_nonneg _ pr'.1 pr'.2 _ (delta1_nonneg_all C t pr' hpr' ht)

lemma countE1_pos (C : Corpus) (t : String → String → ℚ) (ht : TPos C t)
    (e : String) (hsupp : (tSupport C e).Nonempty) : 0 < countE1 t C e := by
  rcases hsupp with ⟨f0, hf0⟩
  rcases (mem_tSupport_iff C e f0).mp hf0 with ⟨pr, hpr, he, hfm⟩
  unfold countE1
  refine listSum_pos _ _ pr hpr ?_ ?_
  · exact cE_pos _ pr.1 pr.2 e f0 he hfm (delta1_nonneg_all C t pr hpr ht)
      (delta1_pos C t pr.1 pr.2 hpr ht e he f0 hfm)
  · intro pr' hpr'
    exact cE_nonneg _ pr'.1 pr'.2 _ (delta1_nonneg_all C t pr' hpr' ht)

lemma countEF2_pos (C : Corpus) (t : String → String → ℚ)
    (q : ℕ × ℕ × ℕ → ℕ → ℚ) (ht : TPos C t) (hq : QPos C q)
    (e f : String) (hf : f ∈ tSupport C e) : 0 < countEF2 t q C (e, f) := by
  rcases (mem_tSupport_iff C e f).mp hf with ⟨pr, hpr, he, hfm⟩
  unfold countEF2
  refine listSum_pos _ _ pr hpr ?_ ?_
  · exact cEF_pos _ pr.1 pr.2 e f he hfm (delta2_nonneg_all C t q pr hpr ht hq)
      (delta2_pos C t q pr.1 pr.2 hpr ht hq e he f hfm)
  · intro pr' hpr'
    exact cEF_nonneg _ pr'.1 pr'.2 _ (delta2_nonneg_all C t q pr' hpr' ht hq)

lemma countE2_pos (C : Corpus) (t : String → String → ℚ)
    (q : ℕ × ℕ × ℕ → ℕ → ℚ) (ht : TPos C t) (hq : QPos C q)
    (e : String) (hsupp : (tSupport C e).Nonempty) : 0 < countE2 t q C e := by
  rcases hsupp with ⟨f0, hf0⟩
  rcases (mem_tSupport_iff C e f0).mp hf0 with ⟨pr, hpr, he, hfm⟩
  unfold countE2
  refine listSum_pos _ _ pr hpr ?_ ?_
  · exact cE_pos _ pr.1 pr.2 e f0 he hfm (delta2_nonneg_all C t q pr hpr ht hq)
      (delta2_pos C t q pr.1 pr.2 hpr ht hq e he f0 hfm)
  · intro pr' hpr'
    exact cE_nonneg _ pr'.1 pr'.2 _ (delta2_nonneg_all C t q pr' hpr' ht hq)

lemma countQ4_pos (C : Corpus) (t : String → String → ℚ)
    (q : ℕ × ℕ × ℕ → ℕ → ℚ) (ht : TPos C t) (hq : QPos C q)
    (i l m j : ℕ) (hkey : (i, l, m) ∈ qKeys C) (hj : j ≤ l) :
    0 < countQ4 t q C (i, l, m, j) := by
  rcases (mem_qKeys_iff C i l m).mp hkey with ⟨pr, hpr, hl, hm, hi1, hi2⟩
  unfold countQ4
  refine listSum_pos _ _ pr hpr ?_ ?_
  · rw [hl, hm]
    refine cQ4_pos _ pr.1 pr.2 i j hi1 hi2 (by omega)
      (delta2_nonneg_all C t q pr hpr ht hq) ?_
    refine delta2_pos C t q pr.1 pr.2 hpr ht hq _ ?_ _
      (nth_mem pr.2 (i - 1) (by omega))
    exact eAt_null_or_mem pr.1 j (by omega)
  · intro pr' hpr'
    exact cQ4_nonneg _ pr'.1 pr'.2 _ (delta2_nonneg_all C t q pr' hpr' ht hq)

lemma countQ3_pos (C : Corpus) (t : String → String → ℚ)
    (q : ℕ × ℕ × ℕ → ℕ → ℚ) (ht : TPos C t) (hq : QPos C q)
    (i l m : ℕ) (hkey : (i, l, m) ∈ qKeys C) : 0 < countQ3 t q C (i, l, m) := by
  rcases (mem_qKeys_iff C i l m).mp hkey with ⟨pr, hpr, hl, hm, hi1, hi2⟩
  unfold countQ3
  refine listSum_pos _ _ pr hpr ?_ ?_
  · rw [hl, hm]
    refine cQ3_pos _ pr.1 pr.2 i hi1 hi2
      (delta2_nonneg_all C t q pr hpr ht hq) ?_
    exact delta2_pos C t q pr.1 pr.2 hpr ht hq NULL (Or.inl rfl) _
      (nth_mem pr.2 (i - 1) (by omega))
  · intro pr' hpr'
    exact cQ3_nonneg _ pr'.1 pr'.2 _ (delta2_nonneg_all C t q pr' hpr' ht hq)

lemma initT_TPos (C : Corpus) : TPos C (initT C) := by
  intro e f hf
  unfold initT
  have hcard : 0 < (tSupport C e).card := Finset.card_pos.mpr ⟨f, hf⟩
  have : (0 : ℚ) < ((tSupport C e).card : ℚ) := by
    exact_mod_cast hcard
  exact div_pos one_pos this

lemma initQ_QPos (C : Corpus) : QPos C initQ := by
  intro i l m j _ _
  unfold initQ
  have : (0 : ℚ) < (l : ℚ) + 1 := by positivity
  exact div_pos one_pos this

lemma stepT1_TPos (C : Corpus) (t : String → String → ℚ) (ht : TPos C t) :
    TPos C (stepT1 t C) := by
  intro e f hf
  unfold stepT1
  exact div_pos (countEF1_pos C t ht e f hf) (countE1_pos C t ht e ⟨f, hf⟩)

lemma stepT2_TPos (C : Corpus) (t : String → String → ℚ)
    (q : ℕ × ℕ × ℕ → ℕ → ℚ) (ht : TPos C t) (hq : QPos C q) :
    TPos C (stepT2 t q C) := by
  intro e f hf
  unfold stepT2
  exact div_pos (countEF2_pos C t q ht hq e f hf) (countE2_pos C t q ht hq e ⟨f, hf⟩)

lemma stepQ2_QPos (C : Corpus) (t : String → String → ℚ)
    (q : ℕ × ℕ × ℕ → ℕ → ℚ) (ht : TPos C t) (hq : QPos C q) :
    QPos C (stepQ2 t q C) := by
  intro i l m j hkey hj
  unfold stepQ2
  exact div_pos (countQ4_pos C t q ht hq i l m j hkey hj)
    (countQ3_pos C t q ht hq i l m hkey)

/-- C9: after initialization every `t` entry on its support (and every `q`
entry on its support) is strictly positive; one M-step of either model
preserves this positivity; consequently every E-step normalizer (`z1`, `z2`)
and every M-step count denominator (`countE1`, `countE2`, `countQ3`) that
the code divides by is strictly positive, and every table key the E-step
reads belongs to the support built by `EM.create_parameters` (the last two
conjuncts), so no division by zero and no missing-key access occurs. -/
theorem c9_tables_positive_no_fault (C : Corpus) (t : String → String → ℚ)
    (q : ℕ × ℕ × ℕ → ℕ → ℚ) :
    TPos C (initT C) ∧ QPos C initQ ∧
      (TPos C t → TPos C (stepT1 t C)) ∧
      (TPos C t → QPos C q → TPos C (stepT2 t q C) ∧ QPos C (stepQ2 t q C)) ∧
      (TPos C t → ∀ es fs : Sentence, (es, fs) ∈ C.pairs → ∀ f ∈ fs, 0 < z1 t es f) ∧
      (TPos C t → QPos C q → ∀ es fs : Sentence, (es, fs) ∈ C.pairs →
        ∀ i, 1 ≤ i → i ≤ fs.length → 0 < z2 t q es fs i) ∧
      (TPos C t → ∀ e, (tSupport C e).Nonempty → 0 < countE1 t C e) ∧
      (TPos C t → QPos C q → ∀ e, (tSupport C e).Nonempty → 0 < countE2 t q C e) ∧
      (TPos C t → QPos C q → ∀ i l m, (i, l, m) ∈ qKeys C →
        0 < countQ3 t q C (i, l, m)) ∧
      (∀ es fs : Sentence, (es, fs) ∈ C.pairs → ∀ e, (e = NULL ∨ e ∈ es) →
        ∀ f ∈ fs, f ∈ tSupport C e) ∧
      (∀ es fs : Sentence, (es, fs) ∈ C.pairs → ∀ i, 1 ≤ i → i ≤ fs.length →
        (i, es.length, fs.length) ∈ qKeys C) := by
  refine ⟨initT_TPos C, initQ_QPos C, stepT1_TPos C t, ?_, ?_, ?_, ?_, ?_, ?_, ?_, ?_⟩
  · intro ht hq
    exact ⟨stepT2_TPos C t q ht hq, stepQ2_QPos C t q ht hq⟩
  · intro ht es fs hpr f hf
    exact z1_pos C t es fs hpr f hf ht
  · intro ht hq es fs hpr i hi1 hi2
    exact z2_pos C t q es fs hpr i hi1 hi2 ht hq
  · intro ht e hsupp
    exact countE1_pos C t ht e hsupp
  · intro ht hq e hsupp
    exact countE2_pos C t q ht hq e hsupp
  · intro ht hq i l m hkey
    exact countQ3_pos C t q ht hq i l m hkey
  · intro es fs hpr e he f hf
    exact (mem_tSupport_iff C e f).mpr ⟨(es, fs), hpr, he, hf⟩
  · intro es fs hpr i hi1 hi2
    exact (mem_qKeys_iff C i es.length fs.length).mpr ⟨(es, fs), hpr, rfl, rfl, hi1, hi2⟩

/-- Closed instance of `c9_tables_positive_no_fault` on the corpus `C5x` with
the initialized tables. -/
theorem c9_tables_positive_no_fault_witness :
    0 < stepT1 (initT C5x) C5x "a" "x" ∧ 0 < countE1 (initT C5x) C5x "a" ∧
      0 < stepQ2 (initT C5x) initQ C5x (1, 2, 1) 0 :=
  ⟨(c9_tables_positive_no_fault C5x (initT C5x) initQ).2.2.1 (initT_TPos C5x)
      "a" "x" (by decide),
    (c9_tables_positive_no_fault C5x (initT C5x) initQ).2.2.2.2.2.2.1 (initT_TPos C5x)
      "a" ⟨"x", by decide⟩,
    ((c9_tables_positive_no_fault C5x (initT C5x) initQ).2.2.2.1 (initT_TPos C5x)
        (initQ_QPos C5x)).2 1 2 1 0 (by decide) (by decide)⟩

/-! ## Sum-to-one lemmas (claim C4 machinery) -/

lemma ite_pair_eq (e0 f0 e f : String) (v : ℚ) :
    (if (e0, f0) = (e, f) then v else 0) =
      if e0 = e then (if f0 = f then v else 0) else 0 := by
  by_cases h1 : e0 = e <;> by_cases h2 : f0 = f <;> simp [h1, h2, Prod.ext_iff]

lemma sum_cEF_eq_cE (d : String × String → ℚ) (es fs : Sentence) (e0 : String)
    (S : Finset String)
    (hS : ∀ e ∈ NULL :: es, e = e0 → ∀ f ∈ fs, f ∈ S) :
    ∑ f0 ∈ S, cEF d es fs (e0, f0) = cE d es fs e0 := by
  unfold cEF cE
  rw [finsetSum_listSum]
  refine listSum_congr _ _ _ (fun e he => ?_)
  rw [finsetSum_listSum]
  refine listSum_congr _ _ _ (fun f hf => ?_)
  by_cases h1 : e0 = e
  · have hfS : f ∈ S := hS e he h1.symm f hf
    rw [if_pos h1]
    calc ∑ f0 ∈ S, (if (e0, f0) = (e, f) then d (e, f) else 0)
        = ∑ f0 ∈ S, (if f0 = f then d (e, f) else 0) := by
          refine Finset.sum_congr rfl (fun f0 _ => ?_)
          rw [ite_pair_eq, if_pos h1]
      _ = if f ∈ S then d (e, f) else 0 := Finset.sum_ite_eq' S f (fun _ => d (e, f))
      _ = d (e, f) := if_pos hfS
  · rw [if_neg h1]
    refine Finset.sum_eq_zero (fun f0 _ => ?_)
    rw [ite_pair_eq, if_neg h1]

lemma sum_countEF_eq_countE (C : Corpus)
    (dfun : Sentence × Sentence → String × String → ℚ) (e0 : String) :
    ∑ f0 ∈ tSupport C e0, (C.pairs.map (fun pr => cEF (dfun pr) pr.1 pr.2 (e0, f0))).sum =
      (C.pairs.map (fun pr => cE (dfun pr) pr.1 pr.2 e0)).sum := by
  rw [finsetSum_listSum]
  refine listSum_congr _ _ _ (fun pr hpr => ?_)
  refine sum_cEF_eq_cE _ pr.1 pr.2 e0 _ (fun e he heq f hf => ?_)
  refine (mem_tSupport_iff C e0 f).mpr ⟨pr, hpr, ?_, hf⟩
  rcases (mem_null_cons_iff pr.1 e).mp he with h | h
  · exact Or.inl (heq ▸ h)
  · exact Or.inr (heq ▸ h)

lemma sum_countEF1 (C : Corpus) (t : String → String → ℚ) (e0 : String) :
    ∑ f0 ∈ tSupport C e0, countEF1 t C (e0, f0) = countE1 t C e0 := by
  unfold countEF1 countE1
  exact sum_countEF_eq_countE C (fun pr => delta1 t pr.1) e0

lemma sum_countEF2 (C : Corpus) (t : String → String → ℚ)
    (q : ℕ × ℕ × ℕ → ℕ → ℚ) (e0 : String) :
    ∑ f0 ∈ tSupport C e0, countEF2 t q C (e0, f0) = countE2 t q C e0 := by
  unfold countEF2 countE2
  exact sum_countEF_eq_countE C (fun pr => delta2 t q pr.1 pr.2) e0

lemma ite_key4_eq (i l m j0 i' l' m' j : ℕ) (v : ℚ) :
    (if (i, l, m, j0) = (i', l', m', j) then v else 0) =
      if (i, l, m) = (i', l', m') then (if j0 = j then v else 0) else 0 := by
  by_cases h1 : (i, l, m) = (i', l', m') <;> by_cases h2 : j0 = j <;>
    simp [h1, h2, Prod.ext_iff] <;> rw [Prod.ext_iff, Prod.ext_iff] at h1 <;> tauto

lemma sum_cQ4_eq_cQ3 (d : String × String → ℚ) (es fs : Sentence) (i l m : ℕ) :
    ∑ j0 ∈ Finset.range (l + 1), cQ4 d es fs (i, l, m, j0) = cQ3 d es fs (i, l, m) := by
  unfold cQ4 cQ3
  rw [finsetSum_listSum]
  refine listSum_congr _ _ _ (fun j hj => ?_)
  rw [finsetSum_listSum]
  refine listSum_congr _ _ _ (fun i' hi' => ?_)
  rw [List.mem_range] at hj
  by_cases h1 : (i, l, m) = (i', es.length, fs.length)
  · have hl : l = es.length := by
      rw [Prod.ext_iff, Prod.ext_iff] at h1
      exact h1.2.1
    have hjS : j ∈ Finset.range (l + 1) := Finset.mem_range.mpr (by omega)
    rw [if_pos h1]
    calc ∑ j0 ∈ Finset.range (l + 1),
          (if (i, l, m, j0) = (i', es.length, fs.length, j) then
            d (eAt es j, nth fs (i' - 1)) else 0)
        = ∑ j0 ∈ Finset.range (l + 1),
            (if j0 = j then d (eAt es j, nth fs (i' - 1)) else 0) := by
          refine Finset.sum_congr rfl (fun j0 _ => ?_)
          rw [ite_key4_eq, if_pos h1]
      _ = if j ∈ Finset.range (l + 1) then d (eAt es j, nth fs (i' - 1)) else 0 :=
          Finset.sum_ite_eq' _ j _
      _ = d (eAt es j, nth fs (i' - 1)) := if_pos hjS
  · rw [if_neg h1]
    refine Finset.sum_eq_zero (fun j0 _ => ?_)
    rw [ite_key4_eq, if_neg h1]

lemma sum_countQ4 (C : Corpus) (t : String → String → ℚ)
    (q : ℕ × ℕ × ℕ → ℕ → ℚ) (i l m : ℕ) :
    ∑ j0 ∈ Finset.range (l + 1), countQ4 t q C (i, l, m, j0) = countQ3 t q C (i, l, m) := by
  unfold countQ4 countQ3
  rw [finsetSum_listSum]
  exact listSum_congr _ _ _ (fun pr hpr => sum_cQ4_eq_cQ3 _ pr.1 pr.2 i l m)

lemma tSum_init (C : Corpus) (e : String) (h : (tSupport C e).Nonempty) :
    ∑ f ∈ tSupport C e, initT C e f = 1 := by
  unfold initT
  rw [Finset.sum_const, nsmul_eq_mul]
  have hcard : 0 < (tSupport C e).card := Finset.card_pos.mpr h
  have hne : ((tSupport C e).card : ℚ) ≠ 0 := by
    exact_mod_cast Nat.pos_iff_ne_zero.mp hcard
  field_simp

lemma qSum_init (i l m : ℕ) :
    ∑ j ∈ Finset.range (l + 1), initQ (i, l, m) j = 1 := by
  unfold initQ
  rw [Finset.sum_const, Finset.card_range, nsmul_eq_mul]
  have hne : ((l : ℚ) + 1) ≠ 0 := by positivity
  push_cast
  field_simp

lemma tSum_step1 (C : Corpus) (t : String → String → ℚ) (e : String)
    (ht : TPos C t) (hsupp : (tSupport C e).Nonempty) :
    ∑ f ∈ tSupport C e, stepT1 t C e f = 1 := by
  unfold stepT1
  rw [← Finset.sum_div, sum_countEF1]
  exact div_self (ne_of_gt (countE1_pos C t ht e hsupp))

lemma tSum_step2 (C : Corpus) (t : String → String → ℚ)
    (q : ℕ × ℕ × ℕ → ℕ → ℚ) (e : String) (ht : TPos C t) (hq : QPos C q)
    (hsupp : (tSupport C e).Nonempty) :
    ∑ f ∈ tSupport C e, stepT2 t q C e f = 1 := by
  unfold stepT2
  rw [← Finset.sum_div, sum_countEF2]
  exact div_self (ne_of_gt (countE2_pos C t q ht hq e hsupp))

lemma qSum_step2 (C : Corpus) (t : String → String → ℚ)
    (q : ℕ × ℕ × ℕ → ℕ → ℚ) (i l m : ℕ) (ht : TPos C t) (hq : QPos C q)
    (hkey : (i, l, m) ∈ qKeys C) :
    ∑ j ∈ Finset.range (l + 1), stepQ2 t q C (i, l, m) j = 1 := by
  show ∑ j ∈ Finset.range (l + 1), countQ4 t q C (i, l, m, j) / countQ3 t q C (i, l, m) = 1
  rw [← Finset.sum_div, sum_countQ4]
  exact div_self (ne_of_gt (countQ3_pos C t q ht hq i l m hkey))

/-- C4 counterexample: in the corpus `C4x` the english token `hello` is
present in the `t` table, but its candidate set is empty (its only foreign
line is blank), so the sum of `t(f|e)` over its entries is `0`, not `1` —
already after initialization, in exact arithmetic. -/
theorem c4_counterexample :
    "hello" ∈ tKeys C4x ∧ (∑ f ∈ tSupport C4x "hello", initT C4x "hello" f) ≠ 1 := by
  constructor
  · decide
  · have hempty : tSupport C4x "hello" = ∅ := by decide
    rw [hempty, Finset.sum_empty]
    norm_num

/-- C4 amended: for every english token whose candidate set is nonempty, the
sum over its candidates of `t(f|e)` is exactly 1 after initialization and
after every M-step of either model (given the positivity invariant of C9,
which init establishes and every step preserves), and for every `(i,l,m)`
key of the `q` table the sum of `q(j|i,l,m)` over `j` in `{0..l}` is exactly
1 after initialization and after every model-2 M-step.  A token whose
candidate set is empty keeps an empty row whose sum is 0. -/
theorem c4_sum_to_one (C : Corpus) (t : String → String → ℚ)
    (q : ℕ × ℕ × ℕ → ℕ → ℚ) :
    (∀ e, (tSupport C e).Nonempty → ∑ f ∈ tSupport C e, initT C e f = 1) ∧
      (∀ i l m : ℕ, (i, l, m) ∈ qKeys C →
        ∑ j ∈ Finset.range (l + 1), initQ (i, l, m) j = 1) ∧
      (TPos C t → ∀ e, (tSupport C e).Nonempty →
        ∑ f ∈ tSupport C e, stepT1 t C e f = 1) ∧
      (TPos C t → QPos C q → ∀ e, (tSupport C e).Nonempty →
        ∑ f ∈ tSupport C e, stepT2 t q C e f = 1) ∧
      (TPos C t → QPos C q → ∀ i l m : ℕ, (i, l, m) ∈ qKeys C →
        ∑ j ∈ Finset.range (l + 1), stepQ2 t q C (i, l, m) j = 1) := by
  refine ⟨fun e h => tSum_init C e h, fun i l m _ => qSum_init i l m, ?_, ?_, ?_⟩
  · intro ht e hsupp
    exact tSum_step1 C t e ht hsupp
  · intro ht hq e hsupp
    exact tSum_step2 C t q e ht hq hsupp
  · intro ht hq i l m hkey
    exact qSum_step2 C t q i l m ht hq hkey

/-- Closed instance of `c4_sum_to_one` on the corpus `C5x` with the
initialized tables. -/
theorem c4_sum_to_one_witness :
    ∑ f ∈ tSupport C5x "a", stepT1 (initT C5x) C5x "a" f = 1 ∧
      ∑ j ∈ Finset.range (2 + 1), stepQ2 (initT C5x) initQ C5x (1, 2, 1) j = 1 :=
  ⟨(c4_sum_to_one C5x (initT C5x) initQ).2.2.1 (initT_TPos C5x) "a" ⟨"x", by decide⟩,
    (c4_sum_to_one C5x (initT C5x) initQ).2.2.2.2 (initT_TPos C5x) (initQ_QPos C5x)
      1 2 1 (by decide)⟩

/-! ## Off-support counts vanish (claims C5 and C1 machinery) -/

lemma cEF_zero (d : String × String → ℚ) (es fs : Sentence) (p : String × String)
    (h : p.1 ∉ NULL :: es ∨ p.2 ∉ fs) : cEF d es fs p = 0 := by
  unfold cEF
  refine listSum_zero _ _ (fun e he => ?_)
  refine listSum_zero _ _ (fun f hf => ?_)
  rw [if_neg]
  intro hc
  rcases h with h | h
  · refine h ?_
    rw [hc]
    exact he
  · refine h ?_
    rw [hc]
    exact hf

lemma countEF2_zero (t : String → String → ℚ) (q : ℕ × ℕ × ℕ → ℕ → ℚ)
    (C : Corpus) (p : String × String)
    (h : ∀ pr ∈ C.pairs, p.1 ∉ NULL :: pr.1 ∨ p.2 ∉ pr.2) :
    countEF2 t q C p = 0 := by
  unfold countEF2
  exact listSum_zero _ _ (fun pr hpr => cEF_zero _ pr.1 pr.2 p (h pr hpr))

lemma cQ4_zero (d : String × String → ℚ) (es fs : Sentence) (i l m j : ℕ)
    (h : ¬(l = es.length ∧ m = fs.length ∧ 1 ≤ i ∧ i ≤ fs.length ∧ j ≤ es.length)) :
    cQ4 d es fs (i, l, m, j) = 0 := by
  unfold cQ4
  refine listSum_zero _ _ (fun j' hj' => ?_)
  rw [List.mem_range] at hj'
  refine listSum_zero _ _ (fun i' hi' => ?_)
  rw [List.mem_range'_1] at hi'
  rw [if_neg]
  intro hc
  rw [Prod.ext_iff, Prod.ext_iff, Prod.ext_iff] at hc
  simp only at hc
  obtain ⟨hci, hcl, hcm, hcj⟩ := hc
  exact h ⟨hcl, hcm, by omega, by omega, by omega⟩

lemma countQ4_zero (t : String → String → ℚ) (q : ℕ × ℕ × ℕ → ℕ → ℚ)
    (C : Corpus) (i l m j : ℕ)
    (h : ∀ pr ∈ C.pairs,
      ¬(l = pr.1.length ∧ m = pr.2.length ∧ 1 ≤ i ∧ i ≤ pr.2.length ∧ j ≤ pr.1.length)) :
    countQ4 t q C (i, l, m, j) = 0 := by
  unfold countQ4
  exact listSum_zero _ _ (fun pr hpr => cQ4_zero _ pr.1 pr.2 i l m j (h pr hpr))

/-! ## The state after one model-2 iteration on `C5x` (claim C5 machinery) -/

set_option maxRecDepth 40000 in
lemma stepT2_C5x_eq : stepT2 (initT C5x) initQ C5x = t1x := by
  funext e f
  by_cases he1 : e = NULL
  · subst he1
    by_cases hf1 : f = "x"
    · subst hf1
      with_unfolding_all decide
    · by_cases hf2 : f = "y"
      · subst hf2
        with_unfolding_all decide
      · have hnum : countEF2 (initT C5x) initQ C5x (NULL, f) = 0 := by
          refine countEF2_zero _ _ _ _ (fun pr hpr => Or.inr ?_)
          simp only [Corpus.pairs, C5x, List.zip_cons_cons, List.zip_nil_right,
            List.mem_cons, List.not_mem_nil, or_false] at hpr
          rcases hpr with rfl | rfl | rfl <;> simp [hf1, hf2]
        show countEF2 (initT C5x) initQ C5x (NULL, f) /
            countE2 (initT C5x) initQ C5x NULL = t1x NULL f
        rw [hnum, zero_div]
        simp [t1x, hf1, hf2]
  · by_cases he2 : e = "a"
    · subst he2
      by_cases hf1 : f = "x"
      · subst hf1
        with_unfolding_all decide
      · by_cases hf2 : f = "y"
        · subst hf2
          with_unfolding_all decide
        · have hnum : countEF2 (initT C5x) initQ C5x ("a", f) = 0 := by
            refine countEF2_zero _ _ _ _ (fun pr hpr => Or.inr ?_)
            simp only [Corpus.pairs, C5x, List.zip_cons_cons, List.zip_nil_right,
              List.mem_cons, List.not_mem_nil, or_false] at hpr
            rcases hpr with rfl | rfl | rfl <;> simp [hf1, hf2]
          show countEF2 (initT C5x) initQ C5x ("a", f) /
              countE2 (initT C5x) initQ C5x "a" = t1x "a" f
          rw [hnum, zero_div]
          simp [t1x, hf1, hf2, NULL]
    · by_cases he3 : e = "b"
      · subst he3
        by_cases hf1 : f = "x"
        · subst hf1
          with_unfolding_all decide
        · by_cases hf2 : f = "y"
          · subst hf2
            with_unfolding_all decide
          · have hnum : countEF2 (initT C5x) initQ C5x ("b", f) = 0 := by
              refine countEF2_zero _ _ _ _ (fun pr hpr => Or.inr ?_)
              simp only [Corpus.pairs, C5x, List.zip_cons_cons, List.zip_nil_right,
                List.mem_cons, List.not_mem_nil, or_false] at hpr
              rcases hpr with rfl | rfl | rfl <;> simp [hf1, hf2]
            show countEF2 (initT C5x) initQ C5x ("b", f) /
                countE2 (initT C5x) initQ C5x "b" = t1x "b" f
            rw [hnum, zero_div]
            simp [t1x, hf1, hf2, NULL]
      · have hnum : countEF2 (initT C5x) initQ C5x (e, f) = 0 := by
          refine countEF2_zero _ _ _ _ (fun pr hpr => Or.inl ?_)
          simp only [Corpus.pairs, C5x, List.zip_cons_cons, List.zip_nil_right,
            List.mem_cons, List.not_mem_nil, or_false] at hpr
          rcases hpr with rfl | rfl | rfl <;>
            simp only [List.mem_cons, List.not_mem_nil, or_false, not_or] <;>
            refine ⟨by simpa [NULL] using he1, ?_⟩
          · exact ⟨he2, he2⟩
          · exact ⟨he2, he2, he2⟩
          · exact ⟨he3, he2⟩
        show countEF2 (initT C5x) initQ C5x (e, f) /
            countE2 (initT C5x) initQ C5x e = t1x e f
        rw [hnum, zero_div]
        simp [t1x, he1, he2, he3]

set_option maxRecDepth 40000 in
lemma stepQ2_C5x_eq : stepQ2 (initT C5x) initQ C5x = q1x := by
  funext key j
  obtain ⟨i, l, m⟩ := key
  by_cases h1 : (i, l, m) = ((1 : ℕ), (2 : ℕ), (1 : ℕ))
  · rw [h1]
    by_cases hj0 : j = 0
    · subst hj0
      with_unfolding_all decide
    · by_cases hj1 : j = 1
      · subst hj1
        with_unfolding_all decide
      · by_cases hj2 : j = 2
        · subst hj2
          with_unfolding_all decide
        · have hnum : countQ4 (initT C5x) initQ C5x (1, 2, 1, j) = 0 := by
            refine countQ4_zero _ _ _ _ _ _ _ (fun pr hpr => ?_)
            simp only [Corpus.pairs, C5x, List.zip_cons_cons, List.zip_nil_right,
              List.mem_cons, List.not_mem_nil, or_false] at hpr
            rcases hpr with rfl | rfl | rfl <;> simp only [List.length_cons,
              List.length_nil] <;> omega
          show countQ4 (initT C5x) initQ C5x (1, 2, 1, j) /
              countQ3 (initT C5x) initQ C5x (1, 2, 1) = q1x (1, 2, 1) j
          rw [hnum, zero_div]
          simp [q1x, hj0, hj1, hj2]
  · by_cases h2 : (i, l, m) = ((1 : ℕ), (3 : ℕ), (2 : ℕ))
    · rw [h2]
      by_cases hj0 : j = 0
      · subst hj0
        with_unfolding_all decide
      · by_cases hj1 : j = 1
        · subst hj1
          with_unfolding_all decide
        · by_cases hj2 : j = 2
          · subst hj2
            with_unfolding_all decide
          · by_cases hj3 : j = 3
            · subst hj3
              with_unfolding_all decide
            · have hnum : countQ4 (initT C5x) initQ C5x (1, 3, 2, j) = 0 := by
                refine countQ4_zero _ _ _ _ _ _ _ (fun pr hpr => ?_)
                simp only [Corpus.pairs, C5x, List.zip_cons_cons, List.zip_nil_right,
                  List.mem_cons, List.not_mem_nil, or_false] at hpr
                rcases hpr with rfl | rfl | rfl <;> simp only [List.length_cons,
                  List.length_nil] <;> omega
              show countQ4 (initT C5x) initQ C5x (1, 3, 2, j) /
                  countQ3 (initT C5x) initQ C5x (1, 3, 2) = q1x (1, 3, 2) j
              rw [hnum, zero_div]
              have hj : ¬j ≤ 3 := by omega
              simp [q1x, hj]
    · by_cases h3 : (i, l, m) = ((2 : ℕ), (3 : ℕ), (2 : ℕ))
      · rw [h3]
        by_cases hj0 : j = 0
        · subst hj0
          with_unfolding_all decide
        · by_cases hj1 : j = 1
          · subst hj1
            with_unfolding_all decide
          · by_cases hj2 : j = 2
            · subst hj2
              with_unfolding_all decide
            · by_cases hj3 : j = 3
              · subst hj3
                with_unfolding_all decide
              · have hnum : countQ4 (initT C5x) initQ C5x (2, 3, 2, j) = 0 := by
                  refine countQ4_zero _ _ _ _ _ _ _ (fun pr hpr => ?_)
                  simp only [Corpus.pairs, C5x, List.zip_cons_cons, List.zip_nil_right,
                    List.mem_cons, List.not_mem_nil, or_false] at hpr
                  rcases hpr with rfl | rfl | rfl <;> simp only [List.length_cons,
                    List.length_nil] <;> omega
                show countQ4 (initT C5x) initQ C5x (2, 3, 2, j) /
                    countQ3 (initT C5x) initQ C5x (2, 3, 2) = q1x (2, 3, 2) j
                rw [hnum, zero_div]
                have hj : ¬j ≤ 3 := by omega
                simp [q1x, hj]
      · rw [Prod.ext_iff, Prod.ext_iff] at h1 h2 h3
        simp only at h1 h2 h3
        have hnum : countQ4 (initT C5x) initQ C5x (i, l, m, j) = 0 := by
          refine countQ4_zero _ _ _ _ _ _ _ (fun pr hpr => ?_)
          simp only [Corpus.pairs, C5x, List.zip_cons_cons, List.zip_nil_right,
            List.mem_cons, List.not_mem_nil, or_false] at hpr
          rcases hpr with rfl | rfl | rfl <;> simp only [List.length_cons,
            List.length_nil] <;> omega
        show countQ4 (initT C5x) initQ C5x (i, l, m, j) /
            countQ3 (initT C5x) initQ C5x (i, l, m) = q1x (i, l, m) j
        rw [hnum, zero_div]
        simp only [q1x]
        rw [if_neg (by simp [Prod.ext_iff]; omega),
          if_neg (by simp [Prod.ext_iff]; omega),
          if_neg (by simp [Prod.ext_iff]; omega)]

lemma run2_C5x_one : run2 C5x 1 = ⟨t1x, q1x⟩ := by
  show iter2 C5x (initState C5x) = _
  unfold iter2 initState
  simp only [stepT2_C5x_eq, stepQ2_C5x_eq]

lemma run2_C5x_two : run2 C5x 2 = iter2 C5x ⟨t1x, q1x⟩ := by
  show iter2 C5x (run2 C5x 1) = _
  rw [run2_C5x_one]

/-! ## Claim C1: the model-2 E-step keys responsibilities by word type -/

set_option maxRecDepth 40000 in
/-- C1: the model-2 E-step does NOT give every position pair its own
responsibility.  On the sentence pair `("a a", "x")` of `C5x` under the
tables `t1x`, `q1x` reached after one model-2 iteration (where
`q(1|1,2,1) = 5/12` differs from `q(2|1,2,1) = 7/24`), the `delta` dict is
keyed by the word-type pair `(a, x)`, so the `j = 2` write overwrites the
`j = 1` write and both occurrences of `a` contribute the shared last value:
the code accumulates `count[(a, x)] = 364/645` and
`count[(1,2,1,1)] = 182/645`, while the spec's per-position formulation
gives `442/645` and `52/129` respectively. -/
theorem c1_shared_responsibility_not_per_position :
    cEF (delta2 t1x q1x ["a", "a"] ["x"]) ["a", "a"] ["x"] ("a", "x") = 364 / 645 ∧
      specCountEF2 t1x q1x ["a", "a"] ["x"] ("a", "x") = 442 / 645 ∧
      cQ4 (delta2 t1x q1x ["a", "a"] ["x"]) ["a", "a"] ["x"] (1, 2, 1, 1) = 182 / 645 ∧
      specCountQ4 t1x q1x ["a", "a"] ["x"] (1, 2, 1, 1) = 52 / 129 ∧
      cEF (delta2 t1x q1x ["a", "a"] ["x"]) ["a", "a"] ["x"] ("a", "x") ≠
        specCountEF2 t1x q1x ["a", "a"] ["x"] ("a", "x") ∧
      cQ4 (delta2 t1x q1x ["a", "a"] ["x"]) ["a", "a"] ["x"] (1, 2, 1, 1) ≠
        specCountQ4 t1x q1x ["a", "a"] ["x"] (1, 2, 1, 1) := by
  refine ⟨?_, ?_, ?_, ?_, ?_, ?_⟩ <;> with_unfolding_all decide

/-! ## Claim C5: the corpus log-likelihood decreases on `C5x` -/

set_option maxRecDepth 40000 in
/-- C5: on the corpus `C5x`, running `initialize` and then model-2 EM
iterations (`run2`), the corpus log-likelihood DECREASES from iteration 1 to
iteration 2: it is `log (2451596625/20200652641)` (about `log 0.12136`)
after one iteration and strictly smaller after two.  This refutes EM
monotonicity for this implementation; the cause is the word-type-keyed
`delta` dict of C1. -/
theorem c5_loglikelihood_decreases :
    Real.log ((corpusLik2 (run2 C5x 2) C5x : ℚ) : ℝ) <
      Real.log ((corpusLik2 (run2 C5x 1) C5x : ℚ) : ℝ) := by
  have h1 : (0 : ℚ) < corpusLik2 (run2 C5x 2) C5x := by
    rw [run2_C5x_two]
    with_unfolding_all decide
  have h2 : corpusLik2 (run2 C5x 2) C5x < corpusLik2 (run2 C5x 1) C5x := by
    rw [run2_C5x_two, run2_C5x_one]
    with_unfolding_all decide
  have h1R : (0 : ℝ) < ((corpusLik2 (run2 C5x 2) C5x : ℚ) : ℝ) := by
    exact_mod_cast h1
  have h2R : ((corpusLik2 (run2 C5x 2) C5x : ℚ) : ℝ) <
      ((corpusLik2 (run2 C5x 1) C5x : ℚ) : ℝ) := by
    exact_mod_cast h2
  exact Real.log_lt_log h1R h2R

end TranslationModels
